import Mathlib

/-!
Verification development for the `Config` class of `src/snippets/config.py`
(python-snippets repository, version 2.2.4).

The embedding is shallow: Python values become an inductive type `PyVal`,
Python dicts become insertion-ordered association lists with string keys
(the program stringifies all section names and keys at its ingestion
boundary `_autocorrect`, so restricting the model to string keys loses
nothing that the claims exercise), and fallible Python code becomes
`Except PyErr`.  The external INI parser/writer (`configparser`, which the
specification treats as an external collaborator) is modelled from the
specification's interface description: the durable format is a
section -> key -> text mapping whose reserved DEFAULT section's keys are
inherited as fallbacks by every other section on read-back, with option
keys lower-cased by the parser.  Python's `eval` (used by `_cast_value`
for bracket-delimited literals) is kept abstract as an explicit function
parameter `EvalFn`, so every theorem holds for an arbitrary evaluator.
-/

namespace ConfigSnippets

/-- Python exception model: the exception classes thrown by the code under
study.  Only `ValueError` is caught by the cast machinery; every other
class propagates. -/
inductive PyErr where
  | valueError (msg : String)
  | keyError (key : String)
  | typeError (msg : String)
  | attributeError (msg : String)
  | fileNotFoundError (path : String)

/-- Python value model covering the types handled by `Config._cast_value`:
`str`, `bool`, `int`, `float`, `list`, `tuple`, `set`, `dict`.  Python
floats are modelled as rationals (the program only ever parses decimal
literals into them); Python dict keys are modelled as strings. -/
inductive PyVal where
  | str (s : String)
  | bool (b : Bool)
  | int (n : Int)
  | float (q : Rat)
  | list (l : List PyVal)
  | tuple (l : List PyVal)
  | set (l : List PyVal)
  | dict (d : List (String × PyVal))

/-- Ordered string-keyed dictionary (Python `dict` with string keys). -/
abbrev StrMap (α : Type) := List (String × α)

/-- Python `d[k]` lookup returning an `Option`. -/
def dGet {α : Type} (d : StrMap α) (k : String) : Option α :=
  match d with
  | [] => Option.none
  | p :: ps => if p.1 = k then Option.some p.2 else dGet ps k

/-- Python `d[k] = v`: update in place if the key exists (keeping insertion
order), append otherwise. -/
def dSet {α : Type} (d : StrMap α) (k : String) (v : α) : StrMap α :=
  match d with
  | [] => [(k, v)]
  | p :: ps => if p.1 = k then (k, v) :: ps else p :: dSet ps k v

/-- Python `k in d`. -/
def dHas {α : Type} (d : StrMap α) (k : String) : Bool :=
  match d with
  | [] => false
  | p :: ps => p.1 = k || dHas ps k

/-- Python `d.keys()` as a list. -/
def dKeys {α : Type} (d : StrMap α) : List String := d.map Prod.fst

/-- Python `d.update(e)`: write every entry of `e` into `d` in order. -/
def dUpdate {α : Type} (d e : StrMap α) : StrMap α :=
  e.foldl (fun acc p => dSet acc p.1 p.2) d

/-- Two-level lookup `d[s][k]`. -/
def dGet2 {α : Type} (d : StrMap (StrMap α)) (s k : String) : Option α :=
  (dGet d s).bind (fun ds => dGet ds k)

/-- The in-memory two-level mapping `section name -> (key -> value)`
(`ConfigData` and `DefaultData` of the specification). -/
abbrev ConfigData := StrMap (StrMap PyVal)

/-- A raw Python dict handed to the constructor: string keys, arbitrary
values (which may themselves be dicts, making the input section-shaped). -/
abbrev RawDict := StrMap PyVal

/-- The reserved default section name (`configparser.DEFAULTSECT`). -/
def DEFAULTSECT : String := "DEFAULT"

/-- Checks whether a `PyVal` is a Python dict. -/
def PyVal.isDict : PyVal → Bool
  | .dict _ => true
  | _ => false

/-- Payload of a Python dict value.  Only ever applied under an
`isDict` guard (mirroring the source, which indexes such values only
after `_have_section` returned `True`). -/
def PyVal.asDict : PyVal → RawDict
  | .dict d => d
  | _ => []

/-- Python `str.lower()` for the ASCII section/key/mode text this program
handles, implemented on the character list so that closed computations
reduce definitionally. -/
def pyLower (s : String) : String := String.mk (s.toList.map Char.toLower)

/-- ASCII whitespace recognized by Python's numeric constructors when
stripping their string argument. -/
def pySpaceChar (c : Char) : Bool :=
  c = ' ' || c = '\t' || c = '\n' || c = '\r'

/-- Python `str.strip()` restricted to ASCII whitespace. -/
def pyStrip (s : String) : String :=
  String.mk (((s.toList.dropWhile pySpaceChar).reverse.dropWhile pySpaceChar).reverse)

/-- Splits a character list at every occurrence of the separator.  The
result always has one more group than there are separators, matching
Python `str.split(sep)`. -/
def charsSplit (sep : Char) : List Char → List (List Char)
  | [] => [[]]
  | c :: cs =>
    match charsSplit sep cs with
    | [] => [[]]
    | g :: gs => if c = sep then [] :: g :: gs else (c :: g) :: gs

/-- Python `s.split(sep)` for a one-character separator (the only kind the
program uses: `","`, `":"`). -/
def pySplit (s : String) (sep : Char) : List String :=
  (charsSplit sep s.toList).map String.mk

/-- Checks that the first character list is an initial segment of the
second. -/
def charsStarts : List Char → List Char → Bool
  | [], _ => true
  | _ :: _, [] => false
  | a :: as, b :: bs => a = b && charsStarts as bs

/-- Python `s.startswith(p)`. -/
def pyStartsWith (s p : String) : Bool := charsStarts p.toList s.toList

/-- Python `s.endswith(p)`. -/
def pyEndsWith (s p : String) : Bool := charsStarts p.toList.reverse s.toList.reverse

/-- Numeric view shared by Python `bool`, `int` and `float` (Python makes
`True == 1` and `1 == 1.0` true). -/
def pyNumV : PyVal → Option Rat
  | .bool b => Option.some (if b then 1 else 0)
  | .int n => Option.some (n : Rat)
  | .float q => Option.some q
  | _ => Option.none

mutual

/-- Python `==` on values: strings by text, numbers (`bool`/`int`/`float`)
by numeric value, sequences elementwise within the same type, sets by
mutual containment, dicts by key set and per-key value equality. -/
def pyValEqCore : PyVal → PyVal → Bool
  | PyVal.str a, PyVal.str b => a = b
  | PyVal.list a, PyVal.list b => pyListEqCore a b
  | PyVal.tuple a, PyVal.tuple b => pyListEqCore a b
  | PyVal.set a, PyVal.set b => pySubsetEqCore a b && pySubsetEqCore b a
  | PyVal.dict a, PyVal.dict b =>
      pyPairsSubCore a b && b.all (fun p => a.any (fun q => q.1 = p.1))
  | a, b =>
      match pyNumV a, pyNumV b with
      | Option.some x, Option.some y => x = y
      | _, _ => false
termination_by a b => sizeOf a + sizeOf b

/-- Elementwise Python `==` on two value lists. -/
def pyListEqCore : List PyVal → List PyVal → Bool
  | [], [] => true
  | a :: as, b :: bs => pyValEqCore a b && pyListEqCore as bs
  | _, _ => false
termination_by a b => sizeOf a + sizeOf b

/-- Python `x in ys` by value equality. -/
def pyMemEqCore : PyVal → List PyVal → Bool
  | _, [] => false
  | a, b :: bs => pyValEqCore a b || pyMemEqCore a bs
termination_by a l => sizeOf a + sizeOf l

/-- Every element of the first list occurs in the second. -/
def pySubsetEqCore : List PyVal → List PyVal → Bool
  | [], _ => true
  | a :: as, ys => pyMemEqCore a ys && pySubsetEqCore as ys
termination_by l ys => sizeOf l + sizeOf ys

/-- Looks up key `k` in an association list and compares the stored value
with `v`. -/
def pyLookupEqCore : String → PyVal → List (String × PyVal) → Bool
  | _, _, [] => false
  | k, v, (k2, w) :: ps => if k2 = k then pyValEqCore v w else pyLookupEqCore k v ps
termination_by _ v l => sizeOf v + sizeOf l

/-- Every pair of the first association list has an equal value under the
same key in the second. -/
def pyPairsSubCore : List (String × PyVal) → List (String × PyVal) → Bool
  | [], _ => true
  | (k, v) :: ps, ys => pyLookupEqCore k v ys && pyPairsSubCore ps ys
termination_by l ys => sizeOf l + sizeOf ys

end

/-- Python `==` with the scalar cases exposed definitionally (the mutual
block above is compiled by well-founded recursion, which does not reduce
under `rfl`; this wrapper repeats its dispatch so that closed comparisons
of scalar values compute).  Container payloads still go through the same
core helpers, so the two agree everywhere. -/
def pyValEq (a b : PyVal) : Bool :=
  match a, b with
  | PyVal.str x, PyVal.str y => x = y
  | PyVal.list x, PyVal.list y => pyListEqCore x y
  | PyVal.tuple x, PyVal.tuple y => pyListEqCore x y
  | PyVal.set x, PyVal.set y => pySubsetEqCore x y && pySubsetEqCore y x
  | PyVal.dict x, PyVal.dict y =>
      pyPairsSubCore x y && y.all (fun p => x.any (fun q => q.1 = p.1))
  | a, b =>
      match pyNumV a, pyNumV b with
      | Option.some x, Option.some y => x = y
      | _, _ => false

/-- Python truthiness (`bool(x)` for the modelled types). -/
def pyTruthy : PyVal → Bool
  | .str s => !s.isEmpty
  | .bool b => b
  | .int n => n ≠ 0
  | .float q => q ≠ 0
  | .list l => !l.isEmpty
  | .tuple l => !l.isEmpty
  | .set l => !l.isEmpty
  | .dict d => !d.isEmpty

/-- Parses a nonempty all-digit character list into a natural number. -/
def digitsToNat : List Char → Option Nat
  | [] => Option.none
  | cs =>
    cs.foldl
      (fun acc c =>
        acc.bind (fun n => if c.isDigit then Option.some (n * 10 + (c.toNat - 48)) else Option.none))
      (Option.some 0)

/-- Python `int(s)` on a string: optional surrounding whitespace, optional
sign, then decimal digits.  (Python additionally accepts underscore
digit-group separators, which this model omits; no theorem depends on
them.) -/
def pyParseInt (s : String) : Option Int :=
  let s := pyStrip s
  let (sign, rest) : Int × String :=
    if pyStartsWith s "-" then (-1, s.drop 1)
    else if pyStartsWith s "+" then (1, s.drop 1) else (1, s)
  (digitsToNat rest.toList).map (fun n => sign * (n : Int))

/-- Python `float(s)` on a string: optional whitespace and sign, decimal
digits with an optional fractional part.  (Python additionally accepts
exponents, `inf` and `nan`; no theorem depends on them.) -/
def pyParseFloat (s : String) : Option Rat :=
  let s := pyStrip s
  let (sign, rest) : Rat × String :=
    if pyStartsWith s "-" then (-1, s.drop 1)
    else if pyStartsWith s "+" then (1, s.drop 1) else (1, s)
  match pySplit rest '.' with
  | [i] => (digitsToNat i.toList).map (fun n => sign * (n : Rat))
  | [i, f] =>
    if i.isEmpty && f.isEmpty then Option.none
    else
      let iN := if i.isEmpty then Option.some 0 else digitsToNat i.toList
      let fN := if f.isEmpty then Option.some 0 else digitsToNat f.toList
      match iN, fN with
      | Option.some a, Option.some b =>
        Option.some (sign * ((a : Rat) + (b : Rat) / ((10 : Rat) ^ f.length)))
      | _, _ => Option.none
  | _ => Option.none

/-- Truncation of a rational toward zero (Python `int(float)`). -/
def ratTrunc (q : Rat) : Int :=
  if q.num < 0 then -(((q.num.natAbs / q.den : Nat) : Int)) else ((q.num.natAbs / q.den : Nat) : Int)

/-- Python `int(x)` as used by the program: identity on ints, 0/1 on bools,
truncation on floats, decimal parse on strings (raising `ValueError` on
failure), `TypeError` on the container types. -/
def pyInt : PyVal → Except PyErr PyVal
  | .int n => .ok (.int n)
  | .bool b => .ok (.int (if b then 1 else 0))
  | .float q => .ok (.int (ratTrunc q))
  | .str s =>
    match pyParseInt s with
    | Option.some n => .ok (.int n)
    | Option.none => .error (.valueError ("invalid literal for int(): " ++ s))
  | _ => .error (.typeError "int() argument must be a string or a number")

/-- Python `float(x)`: identity on floats, promotion of ints and bools,
decimal parse on strings (raising `ValueError` on failure), `TypeError`
on the container types. -/
def pyFloat : PyVal → Except PyErr PyVal
  | .float q => .ok (.float q)
  | .int n => .ok (.float (n : Rat))
  | .bool b => .ok (.float (if b then 1 else 0))
  | .str s =>
    match pyParseFloat s with
    | Option.some q => .ok (.float q)
    | Option.none => .error (.valueError ("could not convert string to float: " ++ s))
  | _ => .error (.typeError "float() argument must be a string or a number")

/-- Renders a rational in Python float-repr style (integer part, dot,
fraction with trailing zeros stripped).  Python's repr additionally uses
scientific notation for very large or small magnitudes; the denominators
produced by this program are powers of ten, for which the plain form is
the one Python prints. -/
def pyFloatRepr (q : Rat) : String :=
  let rec findPow : Nat → Nat → Option Nat
    | _, 0 => Option.none
    | k, fuel + 1 =>
      if q.den ∣ 10 ^ k then Option.some k else findPow (k + 1) fuel
  match findPow 0 64 with
  | Option.none => toString q.num ++ "/" ++ toString q.den
  | Option.some k =>
    let scaled : Nat := q.num.natAbs * (10 ^ k / q.den)
    let ip := scaled / 10 ^ k
    let fp := scaled % 10 ^ k
    let fpStr := String.mk (Nat.toDigits 10 fp)
    let fpStr := String.mk (List.replicate (k - fpStr.length) '0') ++ fpStr
    let fpStr := (fpStr.toList.reverse.dropWhile (· = '0')).reverse
    let fpStr := if fpStr.isEmpty then "0" else String.mk fpStr
    (if q.num < 0 then "-" else "") ++ toString ip ++ "." ++ fpStr

mutual

/-- Python `str(x)` for the modelled values. -/
def pyStrCore : PyVal → String
  | .str s => s
  | .bool b => if b then "True" else "False"
  | .int n => toString n
  | .float q => pyFloatRepr q
  | .list l => "[" ++ String.intercalate ", " (pyReprListCore l) ++ "]"
  | .tuple [x] => "(" ++ pyReprOneCore x ++ ",)"
  | .tuple l => "(" ++ String.intercalate ", " (pyReprListCore l) ++ ")"
  | .set [] => "set()"
  | .set l => "\x7b" ++ String.intercalate ", " (pyReprListCore l) ++ "\x7d"
  | .dict d => "\x7b" ++ String.intercalate ", " (pyReprPairsCore d) ++ "\x7d"
termination_by v => (sizeOf v, 0)

/-- Python `repr(x)` of a single value inside a container: like `str` but
strings are quoted.  (Python chooses quote characters and escapes by
content; the model always uses single quotes, which is what Python does
for quote-free text.) -/
def pyReprOneCore : PyVal → String
  | .str s => "'" ++ s ++ "'"
  | v => pyStrCore v
termination_by v => (sizeOf v, 1)

/-- Reprs of the elements of a list. -/
def pyReprListCore : List PyVal → List String
  | [] => []
  | v :: vs => pyReprOneCore v :: pyReprListCore vs
termination_by l => (sizeOf l, 0)

/-- Reprs of the entries of a dict. -/
def pyReprPairsCore : List (String × PyVal) → List String
  | [] => []
  | (k, v) :: ps => ("'" ++ k ++ "': " ++ pyReprOneCore v) :: pyReprPairsCore ps
termination_by l => (sizeOf l, 0)

end

/-- Python `str(x)` with the scalar cases exposed definitionally (see
`pyValEq` for why); container values delegate to the core renderer. -/
def pyStr (v : PyVal) : String :=
  match v with
  | .str s => s
  | .bool b => if b then "True" else "False"
  | .int n => toString n
  | .float q => pyFloatRepr q
  | v => pyStrCore v

/-- Keeps the first occurrence of each value (Python `set` construction
collapses duplicates). -/
def dedupEq (l : List PyVal) : List PyVal :=
  l.foldl (fun acc x => if pyMemEqCore x acc then acc else acc ++ [x]) []

/-- Python iteration `list(x)`-style element extraction: characters of a
string, elements of a sequence or set, keys of a dict; `TypeError` for
non-iterables. -/
def pyIterElems : PyVal → Except PyErr (List PyVal)
  | .str s => .ok (s.toList.map (fun c => .str (String.mk [c])))
  | .list l => .ok l
  | .tuple l => .ok l
  | .set l => .ok l
  | .dict d => .ok (d.map (fun p => .str p.1))
  | _ => .error (.typeError "object is not iterable")

/-- Python `dict(x)`: identity on dicts; a sequence argument must consist
of length-2 pairs (`ValueError` otherwise).  The model restricts dict keys
to strings, as everywhere. -/
def pyDictCtor : PyVal → Except PyErr PyVal
  | .dict d => .ok (.dict d)
  | .list l => pyDictFromPairs l
  | .tuple l => pyDictFromPairs l
  | .set l => pyDictFromPairs l
  | .str _ => .error (.valueError "dictionary update sequence element has bad length")
  | _ => .error (.typeError "dict() argument is not iterable")
where
  pyDictFromPairs (l : List PyVal) : Except PyErr PyVal :=
    (l.foldl
      (fun (acc : Except PyErr RawDict) x =>
        acc.bind (fun m =>
          match x with
          | .list [.str k, w] => .ok (dSet m k w)
          | .tuple [.str k, w] => .ok (dSet m k w)
          | _ => .error (.valueError "dictionary update sequence element has bad length")))
      (.ok [])).map .dict

/-- Python `type(cur)(v)`: the plain constructor of the runtime type of
`cur`, applied to `v`.  This is what `Config.__setitem__` uses when `cast`
is enabled (it does not go through `_cast_value`). -/
def pyConstruct (cur v : PyVal) : Except PyErr PyVal :=
  match cur with
  | .str _ => .ok (.str (pyStr v))
  | .bool _ => .ok (.bool (pyTruthy v))
  | .int _ => pyInt v
  | .float _ => pyFloat v
  | .list _ => (pyIterElems v).map .list
  | .tuple _ => (pyIterElems v).map .tuple
  | .set _ => (pyIterElems v).map (fun l => .set (dedupEq l))
  | .dict _ => pyDictCtor v

/-- Abstract stand-in for Python `eval` on bracket- or brace-delimited
literal text (`_cast_value` delegates those inputs to the full Python
evaluator, which is outside any reasonable shallow embedding).  Every
theorem below holds for an arbitrary evaluator. -/
abbrev EvalFn := String → Except PyErr PyVal

/-- The per-piece `key:value` split used by `_cast_value` for a dict-typed
default on non-brace-delimited text: split on commas, split each piece on
a colon, and require exactly two parts per piece (Python's `dict(...)`
raises `ValueError` otherwise). -/
def dictFromCommaSplit (s : String) : Except PyErr PyVal :=
  let pieces := (pySplit s ',').map (fun x => pySplit x ':')
  if pieces.all (fun p => p.length = 2) then
    .ok (.dict (pieces.foldl
      (fun m p => dSet m (p.headD "") (.str (p.getD 1 ""))) []))
  else .error (.valueError "dictionary update sequence element has bad length")

/-- Model of `Config._cast_value(v, v_def)`.  The type dispatch follows
the source's ordered isinstance scan `[str, bool, float, int, list,
tuple, set, dict]` (constructors are disjoint here, so the order is
immaterial); only `ValueError` is downgraded to "keep the original value"
when `strict_cast` is off — every other exception (notably the
`AttributeError` from calling string methods on non-string input)
propagates. -/
def _cast_value (ev : EvalFn) (strict_cast : Bool) (v vDef : PyVal) : Except PyErr PyVal :=
  let body : Except PyErr PyVal :=
    match vDef with
    | .str _ => .ok v
    | .bool _ =>
      match v with
      | .str s =>
        if pyLower s = "true" ∨ pyLower s = "1" then .ok (.bool true)
        else if pyLower s = "false" ∨ pyLower s = "0" then .ok (.bool false)
        else .error (.valueError ("bool(\"" ++ s ++ "\")"))
      | _ => .error (.attributeError "lower")
    | .float _ => pyFloat v
    | .int _ => pyInt v
    | .list _ =>
      match v with
      | .str s =>
        if pyStartsWith s "[" && pyEndsWith s "]" then ev s
        else .ok (.list ((pySplit s ',').map PyVal.str))
      | _ => .error (.attributeError "startswith")
    | .tuple _ =>
      match v with
      | .str s =>
        if pyStartsWith s "(" && pyEndsWith s ")" then ev s
        else .ok (.tuple ((pySplit s ',').map PyVal.str))
      | _ => .error (.attributeError "startswith")
    | .set _ =>
      match v with
      | .str s =>
        if pyStartsWith s "\x7b" && pyEndsWith s "\x7d" then ev s
        else .ok (.set (dedupEq ((pySplit s ',').map PyVal.str)))
      | _ => .error (.attributeError "startswith")
    | .dict _ =>
      match v with
      | .str s =>
        if pyStartsWith s "\x7b" && pyEndsWith s "\x7d" then ev s
        else dictFromCommaSplit s
      | _ => .error (.attributeError "startswith")
  match body with
  | .ok w => .ok w
  | .error (.valueError m) => if strict_cast then .error (.valueError m) else .ok v
  | .error e => .error e

/-- Model of `Config._have_section`: every top-level value of the raw
input mapping is itself a dict. -/
def _have_section (data : RawDict) : Bool :=
  data.all (fun p => p.2.isDict)

/-- Normalization loop at the end of `_init_configdict`: stringify section
names (identity here, keys are already strings), lower-case keys, rebuild
the two-level mapping in order. -/
def normalizeSections (l : List (String × RawDict)) : ConfigData :=
  l.foldl
    (fun acc sd => dSet acc sd.1 (sd.2.foldl (fun m kv => dSet m (pyLower kv.1) kv.2) []))
    []

/-- Model of `Config._init_configdict(data, section)`. -/
def _init_configdict (data : RawDict) (sec : Option String) : Except PyErr ConfigData :=
  if _have_section data then
    let base : List (String × RawDict) := data.map (fun p => (p.1, p.2.asDict))
    let base :=
      match sec with
      | Option.none => base
      | Option.some s => if base.any (fun p => p.1 = s) then base else base ++ [(s, [])]
    .ok (normalizeSections base)
  else
    match sec with
    | Option.none => .error (.valueError "Configdata must have section")
    | Option.some s => .ok (normalizeSections [(s, data)])

/-- Logical content of a written INI file: section name to (key to text). -/
abbrev FileData := StrMap String

/-- A written INI file as a whole. -/
abbrev IniFile := StrMap FileData

/-- The file system: path to file content. -/
abbrev FS := StrMap IniFile

/-- Modelled from the spec (§6, external durable format): what
`ConfigParser.read_dict` followed by `write` stores — option keys are
lower-cased, values are stringified, the reserved default section is
extracted and written first. -/
def iniSection (d : StrMap PyVal) : FileData :=
  d.foldl (fun acc kv => dSet acc (pyLower kv.1) (pyStr kv.2)) []

/-- Modelled from the spec (§6): the file content produced by
`parser.read_dict(data); parser.write(f)`. -/
def parserWrite (d : ConfigData) : IniFile :=
  (DEFAULTSECT, iniSection ((dGet d DEFAULTSECT).getD [])) ::
    (d.filter (fun p => p.1 != DEFAULTSECT)).map (fun p => (p.1, iniSection p.2))

/-- Lower-cases the keys of a stored section and lifts the text values
back into `PyVal.str` (what reading a section through the parser yields). -/
def lowStrSection (kv : FileData) : StrMap PyVal :=
  kv.foldl (fun acc p => dSet acc (pyLower p.1) (PyVal.str p.2)) []

/-- Modelled from the spec (§6): `Config.__parser_to_dict` applied to a
parser that has read the given file.  `parser.items()` always yields the
reserved default section first, and every other section inherits the
default section's keys as fallback values (its own keys win). -/
def parserReadToDict (fd : IniFile) : ConfigData :=
  let defd := lowStrSection ((dGet fd DEFAULTSECT).getD [])
  (DEFAULTSECT, defd) ::
    (fd.filter (fun p => p.1 != DEFAULTSECT)).map
      (fun p => (p.1, dUpdate defd (lowStrSection p.2)))

/-- The body of the per-key overlay loop of `Config._load`: a key already
present is (optionally) cast against its current value and overwritten; a
new key is admitted unless `strict_key` is set and the section's default
mapping was nonempty, in which case `KeyError` is raised. -/
def _load_overlay_step (ev : EvalFn) (castF strict_castF strict_keyF : Bool)
    (empty_default : Bool) (acc : Except PyErr (StrMap PyVal)) (kv : String × PyVal) :
    Except PyErr (StrMap PyVal) := do
  let cur ← acc
  if dHas cur kv.1 then do
    let v ←
      if castF then _cast_value ev strict_castF kv.2 ((dGet cur kv.1).getD kv.2)
      else .ok kv.2
    .ok (dSet cur kv.1 v)
  else if strict_keyF && !empty_default then .error (.keyError kv.1)
  else .ok (dSet cur kv.1 kv.2)

/-- One section of the merge loop of `Config._load` (the body of
`for s in sections_load`): seed with the section's defaults, then overlay
the raw input for that section key by key. -/
def _load_section (ev : EvalFn) (castF strict_castF strict_keyF : Bool)
    (dflt raw : ConfigData) (s : String) : Except PyErr (StrMap PyVal) :=
  let seed := (dGet dflt s).getD []
  let empty_default := seed.isEmpty
  match dGet raw s with
  | Option.none => .ok seed
  | Option.some rs =>
    rs.foldl (_load_overlay_step ev castF strict_castF strict_keyF empty_default) (.ok seed)

/-- The `sections_load` computation of `Config._load`: requested sections
(or all raw sections), the reserved default section prepended when absent,
then every default section not yet listed, in order. -/
def sectionsToLoad (dflt raw : ConfigData) (sec : Option String) : List String :=
  let l : List String :=
    match sec with
    | Option.none => dKeys raw
    | Option.some s => [s]
  let l := if DEFAULTSECT ∈ l then l else DEFAULTSECT :: l
  (dKeys dflt).foldl (fun acc s => if s ∈ acc then acc else acc ++ [s]) l

/-- The merge loop of `Config._load` over all sections to materialize. -/
def _load_merge (ev : EvalFn) (castF strict_castF strict_keyF : Bool)
    (dflt raw : ConfigData) (sections : List String) : Except PyErr ConfigData :=
  sections.foldl
    (fun acc s => do
      let dr ← acc
      let ds ← _load_section ev castF strict_castF strict_keyF dflt raw s
      .ok (dSet dr s ds))
    (.ok [])

/-- Input resolution at the top of `Config._load`: turn exactly one of
`file` / `data` into a raw section mapping, together with the new value of
`self.filepath` (which `_load` assigns whenever a file argument is
given). -/
def _load_resolve (file : Option String) (data : Option RawDict) (sec : Option String)
    (notfound_ok : Bool) (fs : FS) : Except PyErr (ConfigData × Option String) :=
  match file, data with
  | Option.some _, Option.some _ => .error (.valueError "Both file and data are given")
  | Option.some p, Option.none =>
    match dGet fs p with
    | Option.some fd => .ok (parserReadToDict fd, Option.some p)
    | Option.none =>
      if notfound_ok then .ok ([(DEFAULTSECT, [])], Option.some p)
      else .error (.fileNotFoundError p)
  | Option.none, Option.some d => (_init_configdict d sec).map (fun cd => (cd, Option.none))
  | Option.none, Option.none => .error (.valueError "Both file and data are None")

/-- Model of `Config._load`: resolve the input, then run the merge loop
over the sections to materialize. -/
def _load (ev : EvalFn) (castF strict_castF strict_keyF : Bool) (dflt : ConfigData)
    (file : Option String) (data : Option RawDict) (sec : Option String)
    (notfound_ok : Bool) (fs : FS) : Except PyErr (ConfigData × Option String) := do
  let (raw, fp) ← _load_resolve file data sec notfound_ok fs
  let dr ← _load_merge ev castF strict_castF strict_keyF dflt raw (sectionsToLoad dflt raw sec)
  .ok (dr, fp)

/-- The constructor's first positional argument: a storage path, an
in-memory mapping, or `None`. -/
inductive Source where
  | file (path : String)
  | mem (d : RawDict)
  | nil

/-- State of a `Config` instance.  `sectionName` models `self.section`
(`section` is a Lean keyword); `default` and `data` model the two
two-level mappings; the three policy flags keep their source names. -/
structure Config where
  _cast : Bool
  _strict_cast : Bool
  _strict_key : Bool
  filepath : Option String
  default : ConfigData
  data : ConfigData
  sectionName : String

/-- Model of `Config.__init__`.  Section names and keys arrive as strings
here (the source's `_autocorrect` stringifies other scalars before this
point, with a warning); `_autocorrect` on a string section name is the
identity and on a key is lower-casing. -/
def Config.init (ev : EvalFn) (fs : FS) (src : Source) (secArg : String)
    (notfound_ok : Bool) (defaultArg : Option RawDict)
    (castF strict_castF strict_keyF : Bool) : Except PyErr Config := do
  let sec := secArg
  let defaultRaw : RawDict :=
    match defaultArg with
    | Option.none => [(sec, PyVal.dict [])]
    | Option.some d => d
  let dflt ← _init_configdict defaultRaw (Option.some sec)
  match src with
  | .nil => .ok ⟨castF, strict_castF, strict_keyF, Option.none, dflt, [(sec, [])], sec⟩
  | .mem d =>
    let d := if _have_section d then d else [(sec, PyVal.dict d)]
    let r ← _load ev castF strict_castF strict_keyF dflt Option.none (Option.some d)
      Option.none false fs
    .ok ⟨castF, strict_castF, strict_keyF, r.2, dflt, r.1, sec⟩
  | .file p =>
    let r ← _load ev castF strict_castF strict_keyF dflt (Option.some p) Option.none
      Option.none notfound_ok fs
    .ok ⟨castF, strict_castF, strict_keyF, r.2, dflt, r.1, sec⟩

/-- Model of `Config.__getitem__`. -/
def Config.getItem (c : Config) (k0 : String) : Except PyErr PyVal :=
  let k := pyLower k0
  match dGet c.data c.sectionName with
  | Option.none => .error (.keyError c.sectionName)
  | Option.some ds =>
    match dGet ds k with
    | Option.none => .error (.keyError k)
    | Option.some v => .ok v

/-- The `try`/`except ValueError` around `type(current)(value)` in
`Config.__setitem__` when `cast` is enabled: coerce with the plain
constructor of the current value's runtime type; only a `ValueError` is
tolerated (the original value is kept) when `strict_cast` is off; every
other exception propagates.  With `cast` off the value passes through. -/
def setItemCastVal (c : Config) (cur v : PyVal) : Except PyErr PyVal :=
  if c._cast then
    match pyConstruct cur v with
    | .ok w => .ok w
    | .error (.valueError m) =>
      if c._strict_cast then .error (.valueError m) else .ok v
    | .error e => .error e
  else .ok v

/-- Model of `Config.__setitem__`. -/
def Config.setItem (c : Config) (k0 : String) (v : PyVal) : Except PyErr Config := do
  let k := pyLower k0
  let dat ←
    if dHas c.data c.sectionName then .ok c.data
    else if c._strict_key then .error (.keyError c.sectionName)
    else .ok (dSet c.data c.sectionName [])
  let ds := (dGet dat c.sectionName).getD []
  if dHas ds k then do
    let v2 ← setItemCastVal c ((dGet ds k).getD v) v
    .ok { c with data := dSet dat c.sectionName (dSet ds k v2) }
  else if c._strict_key then .error (.keyError k)
  else .ok { c with data := dSet dat c.sectionName (dSet ds k v) }

/-- The `__key is not None` arm of `Config.cast` for one section:
`self.data[s][key] = self._cast_value(self.data[s][key], self.default[s][key])`
with the source's evaluation (and `KeyError`) order. -/
def castKeyAt (ev : EvalFn) (strict_cast : Bool) (dflt : ConfigData)
    (dat : ConfigData) (s k : String) : Except PyErr ConfigData := do
  let ds ← match dGet dat s with
    | Option.none => Except.error (PyErr.keyError s)
    | Option.some ds => Except.ok ds
  let v ← match dGet ds k with
    | Option.none => Except.error (PyErr.keyError k)
    | Option.some v => Except.ok v
  let defS ← match dGet dflt s with
    | Option.none => Except.error (PyErr.keyError s)
    | Option.some x => Except.ok x
  let vd ← match dGet defS k with
    | Option.none => Except.error (PyErr.keyError k)
    | Option.some x => Except.ok x
  let w ← _cast_value ev strict_cast v vd
  .ok (dSet dat s (dSet ds k w))

/-- The loop body of the `__key is None` arm of `Config.cast`: for one
key of the section being processed, look up `self.default[s]` (raising
`KeyError` when the section has no defaults — the lookup happens inside
the loop body), and cast the key's current value when the key exists in
the section's defaults. -/
def castSectionStep (ev : EvalFn) (strict_cast : Bool) (dflt : ConfigData) (s : String)
    (acc : Except PyErr (StrMap PyVal)) (k : String) : Except PyErr (StrMap PyVal) := do
  let cur ← acc
  match dGet dflt s with
  | Option.none => Except.error (PyErr.keyError s)
  | Option.some defS =>
    if dHas defS k then do
      let v ← match dGet cur k with
        | Option.none => Except.error (PyErr.keyError k)
        | Option.some v => Except.ok v
      let vd ← match dGet defS k with
        | Option.none => Except.error (PyErr.keyError k)
        | Option.some x => Except.ok x
      let w ← _cast_value ev strict_cast v vd
      Except.ok (dSet cur k w)
    else Except.ok cur

/-- The `__key is None` arm of `Config.cast` for one section: iterate the
section's keys and cast those that exist in the section's defaults. -/
def castSectionAll (ev : EvalFn) (strict_cast : Bool) (dflt : ConfigData)
    (dat : ConfigData) (s : String) : Except PyErr ConfigData :=
  match dGet dat s with
  | Option.none => .error (.keyError s)
  | Option.some ds =>
    ((dKeys ds).foldl (castSectionStep ev strict_cast dflt s) (.ok ds)).map
      (fun ds2 => dSet dat s ds2)

/-- One iteration of the section loop of `Config.cast`: dispatch on
whether a single key or the whole section is being cast. -/
def castOpStep (ev : EvalFn) (sc : Bool) (dflt : ConfigData) (key : Option String)
    (acc : Except PyErr ConfigData) (s : String) : Except PyErr ConfigData := do
  let dat ← acc
  match key with
  | Option.some k => castKeyAt ev sc dflt dat s k
  | Option.none => castSectionAll ev sc dflt dat s

/-- Model of `Config.cast(key, section)`. -/
def Config.castOp (ev : EvalFn) (c : Config) (key : Option String)
    (sec : Option String) : Except PyErr Config :=
  let sections : List String :=
    match sec with
    | Option.none => dKeys c.data
    | Option.some s => [s]
  (sections.foldl (castOpStep ev c._strict_cast c.default key)
    (.ok c.data)).map (fun dat => { c with data := dat })

/-- Model of `Config.to_dict(allsection=True)`: `self.data.copy()`.  The
copy is shallow; the pure model returns the same value (see the heap
model below for the aliasing consequences). -/
def Config.to_dict_all (c : Config) : ConfigData := c.data

/-- Model of `Config.to_dict()` (`allsection=False`):
`self.data[self.section].copy()`. -/
def Config.to_dict_cur (c : Config) : Except PyErr (StrMap PyVal) :=
  match dGet c.data c.sectionName with
  | Option.none => .error (.keyError c.sectionName)
  | Option.some ds => .ok ds

/-- Python `==` on two string-keyed dicts given an equality on values:
same key sets and equal values key by key. -/
def strDictEq {α : Type} (f : α → α → Bool) (x y : StrMap α) : Bool :=
  x.all (fun p =>
    match dGet y p.1 with
    | Option.some w => f p.2 w
    | Option.none => false)
  && y.all (fun p => dHas x p.1)

/-- Python `==` on two `ConfigData` values (nested dict equality). -/
def configEq (a b : ConfigData) : Bool :=
  strDictEq (strDictEq pyValEq) a b

/-- The `Config`-vs-`Config` branch of `Config.__eq__`:
`self.to_dict(allsection=True) == other.to_dict(allsection=True)`. -/
def Config.eqConfig (a b : Config) : Bool :=
  configEq a.to_dict_all b.to_dict_all

/-- The timestamped backup path `f"{name}_{datetime.now():%Y%m%d%H%M%S}"`;
the timestamp is a parameter of the model. -/
def backupName (p now : String) : String := p ++ "_" ++ now

/-- One section of the per-section overlay loop of `Config.save`:
`dict.update` for a section already present in `data_save`, insertion
wholesale for a new one. -/
def save_overlay_step (acc : ConfigData) (p : String × StrMap PyVal) : ConfigData :=
  match dGet acc p.1 with
  | Option.some ex => dSet acc p.1 (dUpdate ex p.2)
  | Option.none => dSet acc p.1 p.2

/-- Tail of `Config.save` once `data_save` has been computed: layer the
scoped in-memory data on top section by section (`dict.update` for
existing sections, insertion for new ones), make the timestamped backup
copy unless suppressed, update `self.filepath` if the destination reload
changed it, and write the result. -/
def Config.saveFinish (now : String) (c : Config) (fs : FS) (filepath : String)
    (orig : IniFile) (dataScope : ConfigData) (data_save : ConfigData)
    (fp2 : Option String) (keep_original_file : Bool) : Except PyErr (Config × FS) :=
  let data_save := dataScope.foldl save_overlay_step data_save
  let fs := if keep_original_file then dSet fs (backupName filepath now) orig else fs
  let c :=
    match fp2 with
    | Option.some q => { c with filepath := Option.some q }
    | Option.none => c
  .ok (c, dSet fs filepath (parserWrite data_save))

/-- Model of `Config.save`.  `now` is the wall-clock timestamp used for
the backup name and `promptAnswer` the console line read in interactive
mode.  Note that the destination-exists branch resolves the write target
to `filepath` but passes the original (possibly `None`) `file` argument
to `_load` in `add` mode — exactly as the source does. -/
def Config.save (ev : EvalFn) (now promptAnswer : String) (c : Config) (fs : FS)
    (file : Option String) (secArg : Option String) (mode : String)
    (keep_original_file : Bool) : Except PyErr (Config × FS) := do
  let filepath ← match file, c.filepath with
    | Option.none, Option.none => Except.error (PyErr.valueError "filepath is not set")
    | Option.none, Option.some p => Except.ok p
    | Option.some p, _ => Except.ok p
  let dataScope ← match secArg with
    | Option.none => Except.ok c.data
    | Option.some s =>
      match dGet c.data s with
      | Option.none => Except.error (PyErr.keyError s)
      | Option.some ds => Except.ok [(s, ds)]
  match dGet fs filepath with
  | Option.some orig =>
    let m := pyLower mode
    let m := if m = "i" ∨ m = "interactive" then pyLower promptAnswer else m
    if m = "w" ∨ m = "write" ∨ m = "overwrite" then do
      let r ← _load ev c._cast c._strict_cast c._strict_key c.default
        Option.none (Option.some []) Option.none false fs
      Config.saveFinish now c fs filepath orig dataScope r.1 r.2 keep_original_file
    else if m = "a" ∨ m = "add" then do
      let r ← _load ev c._cast c._strict_cast c._strict_key c.default
        file Option.none Option.none true fs
      Config.saveFinish now c fs filepath orig dataScope r.1 r.2 keep_original_file
    else if m = "l" ∨ m = "leave" ∨ m = "c" ∨ m = "cancel" ∨ m = "n" ∨ m = "no" then
      .ok (c, fs)
    else .error (.valueError ("Unknown mode: " ++ m))
  | Option.none => .ok (c, dSet fs filepath (parserWrite dataScope))

/-!
Heap-level model of the `data` attribute, capturing the reference
semantics of Python's shallow `dict.copy()` that `to_dict` performs.  The
outer dict maps section names to addresses of inner dicts living in a
heap; `dict.copy()` duplicates the outer table of addresses but shares
the inner dicts.
-/

/-- A heap of inner (per-section) dicts; an address is an index. -/
abbrev Heap := List (StrMap PyVal)

/-- Dereferences an inner-dict address. -/
def heapGet (h : Heap) (a : Nat) : StrMap PyVal := h.getD a []

/-- In-place mutation `inner[k] = v` of the inner dict at address `a`. -/
def heapSetKV (h : Heap) (a : Nat) (k : String) (v : PyVal) : Heap :=
  h.set a (dSet (heapGet h a) k v)

/-- Heap-level state of a store's `data` attribute. -/
structure HConfigData where
  sections : StrMap Nat

/-- The `ConfigData` value a heap-level state denotes. -/
def hview (h : Heap) (secs : StrMap Nat) : ConfigData :=
  secs.map (fun p => (p.1, heapGet h p.2))

/-- Heap-level model of `to_dict(allsection=True)`, i.e. of
`self.data.copy()`: a fresh outer table holding the same inner-dict
addresses. -/
def toDictAllRef (st : HConfigData) : StrMap Nat := st.sections

/-!
Concrete fixtures and counterexamples.  `evalStub` instantiates the
abstract Python evaluator in closed computations; none of the
computations below ever reach an eval branch, so its choice is
irrelevant.
-/

/-- A concrete evaluator instance for closed computations. -/
def evalStub : EvalFn := fun s => .error (.valueError s)

/-- Destination file for the C1 counterexample: the store's own
construction file exists on disk. -/
def c1Fs : FS := [("config.ini", [(DEFAULTSECT, [("x", "dx")]), ("a", [("x", "ax")])])]

/-- The C1 save call with the path argument omitted. -/
def c1SaveOmittedPath : Except PyErr (Config × FS) := do
  let c ← Config.init evalStub c1Fs (.file "config.ini") DEFAULTSECT false Option.none
    false false false
  Config.save evalStub "20260101120000" "" c c1Fs Option.none Option.none "add" true

/-- Construction and mutated-section assignment for the C2
counterexample. -/
def c2AssignNewKey : Except PyErr Config := do
  let c ← Config.init evalStub [] (.mem [("x", .dict [("a", .str "10")])]) DEFAULTSECT
    false Option.none false false true
  Config.setItem { c with sectionName := "x" } "c" (.int 20)

/-- The C3 pipeline: build a store whose `DEFAULT` section holds `x = 1`
while section `a` lacks `x`, save it in `write` mode to a fresh path, and
reload from that path. -/
def c3Roundtrip : Except PyErr Bool := do
  let c ← Config.init evalStub []
    (.mem [(DEFAULTSECT, .dict [("x", .str "1")]), ("a", .dict [])]) DEFAULTSECT
    false Option.none false false false
  let r ← Config.save evalStub "TS" "" c [] (Option.some "f.ini") Option.none "write" true
  let c2 ← Config.init evalStub r.2 (.file "f.ini") DEFAULTSECT false Option.none
    false false false
  .ok (Config.eqConfig c c2)

/-- The C4 construction: source absent, section argument `"a"`. -/
def c4Construct : Except PyErr (Bool × Bool) :=
  (Config.init evalStub [] Source.nil "a" false Option.none false false false).map
    (fun c => (dHas c.data DEFAULTSECT, dHas c.default DEFAULTSECT))

/-- The C5 store: default declares `b` as boolean `True`, `cast` and
`strict_cast` are enabled, the loaded value is the text `"true"` (cast to
`True` at load), and then `"false"` is assigned to `b`. -/
def c5Assign : Except PyErr PyVal := do
  let c ← Config.init evalStub [] (.mem [("b", .str "true")]) DEFAULTSECT false
    (Option.some [("b", .bool true)]) true true false
  let c2 ← Config.setItem c "b" (.str "false")
  Config.getItem c2 "b"

/-- The C7 store: section `a` exists in the data with one key but has no
default section (defaults hold only `DEFAULT -> {}`). -/
def c7CastAll : Except PyErr Config := do
  let c ← Config.init evalStub [] (.mem [("a", .dict [("x", .str "1")])]) DEFAULTSECT
    false Option.none false false false
  Config.castOp evalStub c Option.none Option.none

/-- The C9 save call: mode `leave`, destination path absent from the file
system. -/
def c9LeaveFresh : Except PyErr Bool := do
  let c ← Config.init evalStub [] (.mem [("hoge", .dict [("fuga", .str "5")])]) DEFAULTSECT
    false Option.none false false false
  let r ← Config.save evalStub "TS" "" c [] (Option.some "p.ini") Option.none "leave" true
  .ok (dGet r.2 "p.ini").isSome

/-- Heap fixture for the C8 counterexample: one inner dict `x = "1"`. -/
def c8Heap : Heap := [[("x", .str "1")]]

/-- Store state for the C8 counterexample: section `a` points at the inner
dict. -/
def c8St : HConfigData := ⟨[("a", 0)]⟩

/-- The heap after writing `x = "9"` into the per-section mapping obtained
from `to_dict(allsection=True)`'s result. -/
def c8Mutated : Heap :=
  heapSetKV c8Heap ((dGet (toDictAllRef c8St) "a").getD 0) "x" (.str "9")

/-- The `default` argument as the constructor normalizes it before
`_init_configdict`. -/
def defaultRawOf (dArg : Option RawDict) (sec : String) : RawDict :=
  match dArg with
  | Option.none => [(sec, PyVal.dict [])]
  | Option.some d => d

/-- Fixture store for the C9 witness. -/
def c9WConfig : Config :=
  ⟨false, false, false, Option.none, [(DEFAULTSECT, [])],
    [(DEFAULTSECT, [("x", PyVal.str "1")])], DEFAULTSECT⟩

/-- Fixture file system for the C9 witness: the destination exists. -/
def c9WFs : FS := [("w.ini", [(DEFAULTSECT, [])])]

/-- Fixture store for the C7 witness: one section, one key `n = "5"` with
an integer default. -/
def c7WConfig : Config :=
  ⟨false, false, false, Option.none, [(DEFAULTSECT, [("n", PyVal.int 0)])],
    [(DEFAULTSECT, [("n", PyVal.str "5")])], DEFAULTSECT⟩

/-- The store after `cast()`: `n` now holds the integer 5. -/
def c7WAfter : Config :=
  ⟨false, false, false, Option.none, [(DEFAULTSECT, [("n", PyVal.int 0)])],
    [(DEFAULTSECT, [("n", PyVal.int 5)])], DEFAULTSECT⟩

/-- Heap fixture for the C8 witness: two inner dicts. -/
def c8WHeap : Heap := [[("x", PyVal.str "1")], [("y", PyVal.str "2")]]

/-- Sections-table fixture for the C8 witness. -/
def c8WSt : HConfigData := ⟨[("a", 0), ("b", 1)]⟩

/-- Store fixture for the C3 witness: two textual sections, each
containing the reserved default section's key. -/
def c3WConfig : Config :=
  ⟨false, false, false, Option.none, [(DEFAULTSECT, [])],
    [(DEFAULTSECT, [("x", PyVal.str "1")]),
     ("a", [("x", PyVal.str "2"), ("y", PyVal.str "3")])], DEFAULTSECT⟩

/-- Store fixture for the C1 witness: in-memory data `{a: {x: "9"}}`
(plus the empty reserved section). -/
def c1WConfig : Config :=
  ⟨false, false, false, Option.none, [(DEFAULTSECT, [])],
    [(DEFAULTSECT, []), ("a", [("x", PyVal.str "9")])], DEFAULTSECT⟩

/-- Destination fixture for the C1 witness:
`{a: {x: "1", y: "2"}, b: {z: "3"}}`. -/
def c1WOrig : IniFile :=
  [(DEFAULTSECT, []), ("a", [("x", "1"), ("y", "2")]), ("b", [("z", "3")])]

/-- C1 counterexample.  The claim includes the case where the `save` path
argument is omitted so the destination defaults to the construction path:
per the claim, `save(mode="add")` should then re-read that destination and
merge.  In the code, `save` resolves the write target to `self.filepath`
but forwards the original `file` argument (`None`) to `self._load`, which
receives neither a file nor data and raises
`ValueError("Both file and data are None")` — no merge happens. -/
theorem c1_save_add_omitted_path_raises :
    c1SaveOmittedPath = .error (.valueError "Both file and data are None") := rfl

/-- C2 counterexample.  Section `x` has an empty default mapping (the
store was built with no `default` argument, so only `DEFAULT -> {}`
exists in the defaults), and the claim says that with `strict_key`
enabled any key may then be added.  Direct item assignment of the fresh
key `c` nevertheless raises `KeyError`: `__setitem__` checks membership
in the section's current data, not the default mapping — the same
behaviour the repository's own `test_strict_key` test pins down. -/
theorem c2_strict_key_empty_default_setitem_raises :
    c2AssignNewKey = .error (.keyError "c") := rfl

/-- C3 counterexample.  All values of the store are textual, the
destination is fresh, and the mode is `write`, yet the reloaded store is
not equal to the original: the durable format's reserved default section
donates its key `x` to section `a` on read-back, so the reload holds
`a -> {x: "1"}` where the original held `a -> {}`. -/
theorem c3_roundtrip_not_equal : c3Roundtrip = .ok false := rfl

/-- C4 counterexample.  Constructing with the source absent and
`section="a"` yields `data = {"a": {}}` and `default = {"a": {}}`: the
reserved default section is present in neither `ConfigData` nor
`DefaultData`, against the claim that it is always present in both. -/
theorem c4_default_section_absent : c4Construct = .ok (false, false) := rfl

/-- C5 counterexample.  Per the claim (with the §4.2 boolean rule),
assigning `"false"` to a key with boolean default must store `False` (or
raise, `strict_cast` being enabled, if coercion failed).  The code instead
coerces with `type(current)(value)`, i.e. `bool("false")`, which is `True`
by truthiness: the stored value is `True` and no error is raised. -/
theorem c5_setitem_bool_truthiness : c5Assign = .ok (.bool true) := rfl

/-- C6 counterexample.  The claim says casting a value that already has
the default's type is a no-op.  For a boolean default and the boolean
value `True`, `_cast_value` unconditionally calls `.lower()` on the value
and raises `AttributeError` instead of returning it unchanged. -/
theorem c6_cast_bool_value_raises :
    _cast_value evalStub false (.bool true) (.bool true) = .error (.attributeError "lower") := rfl

/-- C7 counterexample.  The claim says `cast()` succeeds for any
combination of data sections, including sections with no corresponding
default section.  For the data section `a` (nonempty, absent from
DefaultData), the loop body indexes `self.default["a"]` and raises
`KeyError("a")`. -/
theorem c7_cast_missing_default_section_raises :
    c7CastAll = .error (.keyError "a") := rfl

/-- C9 counterexample.  The claim says a `leave`-mode save creates no file
when the destination does not exist.  The code only consults the mode when
the destination already exists; on a fresh path it writes unconditionally,
so the call succeeds and the file afterwards exists. -/
theorem c9_leave_mode_creates_file : c9LeaveFresh = .ok true := rfl

/-- C8 counterexample.  `to_dict(allsection=True)` is `self.data.copy()`,
a shallow copy: the returned mapping holds the very same per-section dict
objects as the store.  Mutating the nested mapping of the returned copy
(writing `x = "9"` through it) changes the store's own `ConfigData` from
`a -> {x: "1"}` to `a -> {x: "9"}`, against the claim that any mutation of
the result leaves the internal data unchanged. -/
theorem c8_to_dict_nested_mutation_aliases :
    dGet (hview c8Mutated c8St.sections) "a" = Option.some [("x", PyVal.str "9")]
    ∧ dGet (hview c8Heap c8St.sections) "a" = Option.some [("x", PyVal.str "1")] :=
  ⟨rfl, rfl⟩

/-!
Lemma toolkit for the ordered-dictionary operations, used by the
universally quantified theorems below.
-/

theorem pybind_ok {α β : Type} (a : α) (f : α → Except PyErr β) :
    (do
      let x ← (Except.ok a : Except PyErr α)
      f x) = f a := rfl

theorem pybind_error {α β : Type} (e : PyErr) (f : α → Except PyErr β) :
    (do
      let x ← (Except.error e : Except PyErr α)
      f x) = Except.error e := rfl

theorem dGet_dSet_self {α : Type} (d : StrMap α) (k : String) (v : α) :
    dGet (dSet d k v) k = Option.some v := by
  induction d with
  | nil => simp [dSet, dGet]
  | cons p ps ih =>
    by_cases h : p.1 = k
    · simp [dSet, dGet, h]
    · simp [dSet, dGet, h, ih]

theorem dGet_dSet_ne {α : Type} (d : StrMap α) (k k2 : String) (v : α) (h : k ≠ k2) :
    dGet (dSet d k v) k2 = dGet d k2 := by
  induction d with
  | nil => simp [dSet, dGet, h]
  | cons p ps ih =>
    by_cases h2 : p.1 = k
    · simp [dSet, dGet, h2, h]
    · simp [dSet, dGet, h2, ih]

theorem dGet_dSet {α : Type} (d : StrMap α) (k k2 : String) (v : α) :
    dGet (dSet d k v) k2 = if k = k2 then Option.some v else dGet d k2 := by
  by_cases h : k = k2
  · subst h; simp [dGet_dSet_self]
  · simp [h, dGet_dSet_ne d k k2 v h]

theorem dHas_eq_isSome_dGet {α : Type} (d : StrMap α) (k : String) :
    dHas d k = (dGet d k).isSome := by
  induction d with
  | nil => simp [dHas, dGet]
  | cons p ps ih =>
    by_cases h : p.1 = k
    · simp [dHas, dGet, h]
    · simp [dHas, dGet, h, ih]

theorem dGet_eq_none_of_not_mem_dKeys {α : Type} (d : StrMap α) (k : String)
    (h : k ∉ dKeys d) : dGet d k = Option.none := by
  induction d with
  | nil => simp [dGet]
  | cons p ps ih =>
    simp only [dKeys, List.map_cons, List.mem_cons, not_or] at h
    have h1 : ¬ p.1 = k := fun hc => h.1 hc.symm
    simp [dGet, h1, ih (by simpa [dKeys] using h.2)]

theorem mem_dKeys_of_dGet {α : Type} (d : StrMap α) (k : String) (v : α)
    (h : dGet d k = Option.some v) : k ∈ dKeys d := by
  induction d with
  | nil => simp [dGet] at h
  | cons p ps ih =>
    by_cases h2 : p.1 = k
    · simp [dKeys, h2]
    · simp only [dGet, h2, if_false] at h
      simp only [dKeys, List.map_cons, List.mem_cons]
      exact Or.inr (by simpa [dKeys] using ih h)

theorem dKeys_dSet {α : Type} (d : StrMap α) (k : String) (v : α) :
    dKeys (dSet d k v) = if k ∈ dKeys d then dKeys d else dKeys d ++ [k] := by
  induction d with
  | nil => simp [dSet, dKeys]
  | cons p ps ih =>
    by_cases h : p.1 = k
    · simp [dSet, dKeys, h]
    · have hne : ¬ k = p.1 := fun hc => h hc.symm
      simp only [dSet, h, if_false, dKeys, List.map_cons]
      simp only [dKeys] at ih
      rw [ih]
      by_cases hm : k ∈ List.map Prod.fst ps
      · simp [hm, hne]
      · simp [hm, hne]

theorem dGet_dUpdate_not_mem {α : Type} (d e : StrMap α) (k : String)
    (h : k ∉ dKeys e) : dGet (dUpdate d e) k = dGet d k := by
  induction e generalizing d with
  | nil => simp [dUpdate]
  | cons p ps ih =>
    simp only [dKeys, List.map_cons, List.mem_cons, not_or] at h
    have step : dUpdate d (p :: ps) = dUpdate (dSet d p.1 p.2) ps := by
      simp [dUpdate, List.foldl_cons]
    rw [step, ih (dSet d p.1 p.2) (by simpa [dKeys] using h.2)]
    exact dGet_dSet_ne d p.1 k p.2 (fun hc => h.1 hc.symm)

theorem dGet_dUpdate_mem {α : Type} (d e : StrMap α) (k : String) (v : α)
    (hnd : (dKeys e).Nodup) (h : (k, v) ∈ e) :
    dGet (dUpdate d e) k = Option.some v := by
  induction e generalizing d with
  | nil => simp at h
  | cons p ps ih =>
    have step : dUpdate d (p :: ps) = dUpdate (dSet d p.1 p.2) ps := by
      simp [dUpdate, List.foldl_cons]
    simp only [dKeys, List.map_cons, List.nodup_cons] at hnd
    rcases List.mem_cons.mp h with h1 | h1
    · subst h1
      rw [step, dGet_dUpdate_not_mem _ _ _ (by simpa [dKeys] using hnd.1)]
      exact dGet_dSet_self d k v
    · exact step ▸ ih (dSet d p.1 p.2) (by simpa [dKeys] using hnd.2) h1

theorem mem_of_dGet {α : Type} (d : StrMap α) (k : String) (v : α)
    (h : dGet d k = Option.some v) : (k, v) ∈ d := by
  induction d with
  | nil => simp [dGet] at h
  | cons p ps ih =>
    obtain ⟨a, b⟩ := p
    by_cases h2 : a = k
    · simp only [dGet, h2, if_true, Option.some.injEq] at h
      subst h2
      subst h
      exact List.mem_cons_self _ _
    · simp only [dGet, h2, if_false] at h
      exact List.mem_cons.mpr (Or.inr (ih h))

theorem isSome_dGet_of_mem_dKeys {α : Type} (d : StrMap α) (k : String)
    (h : k ∈ dKeys d) : (dGet d k).isSome := by
  induction d with
  | nil => simp [dKeys] at h
  | cons p ps ih =>
    by_cases h2 : p.1 = k
    · simp [dGet, h2]
    · have hk : k ∈ dKeys ps := by
        simp only [dKeys, List.map_cons, List.mem_cons] at h
        rcases h with h3 | h3
        · exact absurd h3.symm h2
        · simpa [dKeys] using h3
      simp [dGet, h2, ih hk]

theorem dGet_dUpdate {α : Type} (d e : StrMap α) (k : String)
    (hnd : (dKeys e).Nodup) :
    dGet (dUpdate d e) k =
      match dGet e k with
      | Option.some v => Option.some v
      | Option.none => dGet d k := by
  cases he : dGet e k with
  | some v => exact dGet_dUpdate_mem d e k v hnd (mem_of_dGet e k v he)
  | none =>
    refine dGet_dUpdate_not_mem d e k (fun hm => ?_)
    have := isSome_dGet_of_mem_dKeys e k hm
    rw [he] at this
    simp at this

theorem foldl_dSet_dGet {α : Type} (f : String → α) (l : List String)
    (init : StrMap α) (k : String) :
    dGet (l.foldl (fun dr s => dSet dr s (f s)) init) k =
      if k ∈ l then Option.some (f k) else dGet init k := by
  induction l generalizing init with
  | nil => simp
  | cons s l ih =>
    simp only [List.foldl_cons]
    rw [ih]
    by_cases hl : k ∈ l
    · simp [hl]
    · by_cases hs : s = k
      · subst hs
        simp [hl, dGet_dSet_self]
      · have hks : ¬ k = s := fun hc => hs hc.symm
        rw [dGet_dSet_ne init s k (f s) hs]
        simp [hl, hks]

theorem mem_appendIfAbsent (l0 ks : List String) (t : String) :
    t ∈ ks.foldl (fun acc s => if s ∈ acc then acc else acc ++ [s]) l0
      ↔ (t ∈ l0 ∨ t ∈ ks) := by
  induction ks generalizing l0 with
  | nil => simp
  | cons s ks ih =>
    simp only [List.foldl_cons]
    rw [ih]
    by_cases hc : s ∈ l0
    · simp only [hc, if_true, List.mem_cons]
      constructor
      · rintro (h | h)
        · exact Or.inl h
        · exact Or.inr (Or.inr h)
      · rintro (h | h | h)
        · exact Or.inl h
        · exact Or.inl (by rw [h]; exact hc)
        · exact Or.inr h
    · simp only [hc, if_false, List.mem_append, List.mem_cons, List.not_mem_nil, or_false]
      constructor
      · rintro ((h | h) | h)
        · exact Or.inl h
        · exact Or.inr (Or.inl h)
        · exact Or.inr (Or.inr h)
      · rintro (h | h | h)
        · exact Or.inl (Or.inl h)
        · exact Or.inl (Or.inr h)
        · exact Or.inr h

theorem load_section_raw_none (ev : EvalFn) (cF scF skF : Bool) (dflt raw : ConfigData)
    (s : String) (h : dGet raw s = Option.none) :
    _load_section ev cF scF skF dflt raw s = Except.ok ((dGet dflt s).getD []) := by
  simp [_load_section, h]

theorem loadMerge_eq_pure (ev : EvalFn) (cF scF skF : Bool) (dflt raw : ConfigData)
    (secs : List String) (f : String → StrMap PyVal)
    (hf : ∀ s ∈ secs, _load_section ev cF scF skF dflt raw s = .ok (f s)) :
    _load_merge ev cF scF skF dflt raw secs =
      .ok (secs.foldl (fun dr s => dSet dr s (f s)) []) := by
  have general : ∀ (l : List String) (init : ConfigData),
      (∀ s ∈ l, _load_section ev cF scF skF dflt raw s = .ok (f s)) →
      l.foldl
        (fun acc s => do
          let dr ← acc
          let ds ← _load_section ev cF scF skF dflt raw s
          .ok (dSet dr s ds))
        (.ok init)
      = .ok (l.foldl (fun dr s => dSet dr s (f s)) init) := by
    intro l
    induction l with
    | nil => intro init _; simp
    | cons s l ih =>
      intro init hl
      simp only [List.foldl_cons]
      rw [hl s (List.mem_cons_self s l)]
      show l.foldl _ (Except.ok (dSet init s (f s)) : Except PyErr ConfigData) = _
      exact ih (dSet init s (f s)) (fun t ht => hl t (List.mem_cons_of_mem s ht))
  exact general secs [] hf

theorem init_configdict_some_isOk (d : RawDict) (s : String) :
    ∃ cd, _init_configdict d (Option.some s) = Except.ok cd := by
  unfold _init_configdict
  by_cases h : _have_section d = true
  · simp only [h, if_true]
    exact ⟨_, rfl⟩
  · simp only [h, if_false]
    exact ⟨_, rfl⟩

theorem load_from_data (ev : EvalFn) (cF scF skF nf : Bool) (dflt : ConfigData)
    (d : RawDict) (sec2 : Option String) (fs : FS) (raw : ConfigData)
    (hinit : _init_configdict d sec2 = Except.ok raw) :
    _load ev cF scF skF dflt Option.none (Option.some d) sec2 nf fs
      = (_load_merge ev cF scF skF dflt raw (sectionsToLoad dflt raw sec2)).bind
          (fun dr => Except.ok (dr, (Option.none : Option String))) := by
  simp only [_load, _load_resolve, hinit, Except.map, bind, Except.bind]

theorem config_init_mem_eq (ev : EvalFn) (fs : FS) (d0 : RawDict) (sec : String)
    (nf : Bool) (dArg : Option RawDict) (cF scF skF : Bool) (dflt : ConfigData)
    (hd : _init_configdict (defaultRawOf dArg sec) (Option.some sec) = Except.ok dflt) :
    Config.init ev fs (.mem d0) sec nf dArg cF scF skF
      = (_load ev cF scF skF dflt Option.none
          (Option.some (if _have_section d0 then d0 else [(sec, PyVal.dict d0)]))
          Option.none false fs).bind
          (fun r => Except.ok ⟨cF, scF, skF, r.2, dflt, r.1, sec⟩) := by
  have hd2 := hd
  simp only [defaultRawOf] at hd2
  simp only [Config.init, hd2, bind, Except.bind]

theorem config_init_file_eq (ev : EvalFn) (fs : FS) (p : String) (sec : String)
    (nf : Bool) (dArg : Option RawDict) (cF scF skF : Bool) (dflt : ConfigData)
    (hd : _init_configdict (defaultRawOf dArg sec) (Option.some sec) = Except.ok dflt) :
    Config.init ev fs (.file p) sec nf dArg cF scF skF
      = (_load ev cF scF skF dflt (Option.some p) Option.none
          Option.none nf fs).bind
          (fun r => Except.ok ⟨cF, scF, skF, r.2, dflt, r.1, sec⟩) := by
  have hd2 := hd
  simp only [defaultRawOf] at hd2
  simp only [Config.init, hd2, bind, Except.bind]

theorem config_init_nil_eq (ev : EvalFn) (fs : FS) (sec : String)
    (nf : Bool) (dArg : Option RawDict) (cF scF skF : Bool) (dflt : ConfigData)
    (hd : _init_configdict (defaultRawOf dArg sec) (Option.some sec) = Except.ok dflt) :
    Config.init ev fs Source.nil sec nf dArg cF scF skF
      = Except.ok ⟨cF, scF, skF, Option.none, dflt, [(sec, [])], sec⟩ := by
  have hd2 := hd
  simp only [defaultRawOf] at hd2
  simp only [Config.init, hd2, bind, Except.bind]

/-- C10: an empty in-memory mapping passed as the construction source is
classified section-shaped (the every-top-level-value-is-a-mapping check
holds vacuously), construction succeeds with no shape error, and the
resulting ConfigData consists of the reserved default section plus every
section declared in DefaultData, each seeded with a copy of its default
key/value mapping (the reserved section empty when it declares no
defaults). -/
theorem c10_empty_source_seeds_defaults (ev : EvalFn) (fs : FS) (sec : String)
    (nf : Bool) (dArg : Option RawDict) (cF scF skF : Bool) :
    ∃ c, Config.init ev fs (.mem []) sec nf dArg cF scF skF = Except.ok c
      ∧ dGet c.data DEFAULTSECT = Option.some ((dGet c.default DEFAULTSECT).getD [])
      ∧ (∀ s ds, dGet c.default s = Option.some ds → dGet c.data s = Option.some ds)
      ∧ (∀ s, (dGet c.data s).isSome → s = DEFAULTSECT ∨ (dGet c.default s).isSome) := by
  obtain ⟨dflt, hd⟩ := init_configdict_some_isOk (defaultRawOf dArg sec) sec
  have hraw : _init_configdict [] Option.none = Except.ok [] := rfl
  have hsections : ∀ t, t ∈ sectionsToLoad dflt [] Option.none
      ↔ (t = DEFAULTSECT ∨ t ∈ dKeys dflt) := by
    intro t
    have h0 : sectionsToLoad dflt [] Option.none
        = (dKeys dflt).foldl (fun acc s => if s ∈ acc then acc else acc ++ [s])
            [DEFAULTSECT] := by
      simp [sectionsToLoad, dKeys]
    rw [h0, mem_appendIfAbsent]
    simp
  have hmerge := loadMerge_eq_pure ev cF scF skF dflt [] (sectionsToLoad dflt [] Option.none)
    (fun s => (dGet dflt s).getD [])
    (fun s _ => load_section_raw_none ev cF scF skF dflt [] s rfl)
  have hload := load_from_data ev cF scF skF false dflt [] Option.none fs [] hraw
  rw [hmerge] at hload
  simp only [Except.bind] at hload
  have hinit := config_init_mem_eq ev fs [] sec false dArg cF scF skF dflt hd
  rw [show (if _have_section ([] : RawDict) then ([] : RawDict)
      else [(sec, PyVal.dict [])]) = ([] : RawDict) from rfl] at hinit
  rw [hload] at hinit
  simp only [Except.bind] at hinit
  have hdata : ∀ t, dGet ((sectionsToLoad dflt [] Option.none).foldl
      (fun dr s => dSet dr s ((dGet dflt s).getD [])) []) t
      = if t ∈ sectionsToLoad dflt [] Option.none
        then Option.some ((dGet dflt t).getD []) else Option.none := by
    intro t
    rw [foldl_dSet_dGet]
    by_cases hm : t ∈ sectionsToLoad dflt [] Option.none
    · simp [hm]
    · simp [hm, dGet]
  refine ⟨_, hinit, ?_, ?_, ?_⟩
  · show dGet ((sectionsToLoad dflt [] Option.none).foldl _ []) DEFAULTSECT = _
    rw [hdata DEFAULTSECT]
    simp [(hsections DEFAULTSECT).mpr (Or.inl rfl)]
  · intro s ds hds
    show dGet ((sectionsToLoad dflt [] Option.none).foldl _ []) s = _
    rw [hdata s]
    have hm : s ∈ sectionsToLoad dflt [] Option.none :=
      (hsections s).mpr (Or.inr (mem_dKeys_of_dGet dflt s ds hds))
    simp [hm, hds]
  · intro s hs
    show s = DEFAULTSECT ∨ _
    replace hs : (dGet ((sectionsToLoad dflt [] Option.none).foldl
        (fun dr s => dSet dr s ((dGet dflt s).getD [])) []) s).isSome := hs
    rw [hdata s] at hs
    by_cases hm : s ∈ sectionsToLoad dflt [] Option.none
    · rcases (hsections s).mp hm with h | h
      · exact Or.inl h
      · exact Or.inr (isSome_dGet_of_mem_dKeys dflt s h)
    · simp [hm] at hs

theorem loadMergeFold_error (ev : EvalFn) (cF scF skF : Bool) (dflt raw : ConfigData)
    (l : List String) (e : PyErr) :
    l.foldl
      (fun acc s => do
        let dr ← acc
        let ds ← _load_section ev cF scF skF dflt raw s
        .ok (dSet dr s ds))
      (Except.error e) = Except.error e := by
  induction l with
  | nil => rfl
  | cons s l ih =>
    simp only [List.foldl_cons]
    show l.foldl _ (Except.error e : Except PyErr ConfigData) = _
    exact ih

theorem loadMerge_ok_isSome (ev : EvalFn) (cF scF skF : Bool) (dflt raw : ConfigData)
    (secs : List String) (dr : ConfigData)
    (h : _load_merge ev cF scF skF dflt raw secs = Except.ok dr) :
    ∀ s ∈ secs, (dGet dr s).isSome := by
  have general : ∀ (l : List String) (init : ConfigData),
      l.foldl
        (fun acc s => do
          let dr ← acc
          let ds ← _load_section ev cF scF skF dflt raw s
          .ok (dSet dr s ds))
        (Except.ok init) = Except.ok dr →
      ∀ s, (s ∈ l ∨ (dGet init s).isSome) → (dGet dr s).isSome := by
    intro l
    induction l with
    | nil =>
      intro init h0 s hs
      simp only [List.foldl_nil, Except.ok.injEq] at h0
      subst h0
      rcases hs with hs | hs
      · simp at hs
      · exact hs
    | cons s0 l ih =>
      intro init h0 s hs
      simp only [List.foldl_cons, pybind_ok] at h0
      cases hsec : _load_section ev cF scF skF dflt raw s0 with
      | error e =>
        rw [hsec] at h0
        simp only [pybind_error] at h0
        rw [loadMergeFold_error] at h0
        exact absurd h0 (by simp)
      | ok ds =>
        rw [hsec] at h0
        simp only [pybind_ok] at h0
        refine ih (dSet init s0 ds) h0 s ?_
        rcases hs with hmem | hsome
        · rcases List.mem_cons.mp hmem with h1 | h1
          · subst h1
            right
            rw [dGet_dSet_self]
            rfl
          · exact Or.inl h1
        · right
          rw [dGet_dSet]
          by_cases he : s0 = s
          · simp [he]
          · simp [he, hsome]
  intro s hs
  exact general secs [] h s (Or.inl hs)

theorem DEFAULTSECT_mem_sectionsToLoad (dflt raw : ConfigData) :
    DEFAULTSECT ∈ sectionsToLoad dflt raw Option.none := by
  unfold sectionsToLoad
  rw [mem_appendIfAbsent]
  left
  by_cases h : DEFAULTSECT ∈ dKeys raw <;> simp [h]

theorem load_ok_merge (ev : EvalFn) (cF scF skF nf : Bool) (dflt : ConfigData)
    (fileArg : Option String) (dataArg : Option RawDict) (sec2 : Option String) (fs : FS)
    (dr : ConfigData) (fp : Option String)
    (h : _load ev cF scF skF dflt fileArg dataArg sec2 nf fs = Except.ok (dr, fp)) :
    ∃ raw, _load_resolve fileArg dataArg sec2 nf fs = Except.ok (raw, fp)
      ∧ _load_merge ev cF scF skF dflt raw (sectionsToLoad dflt raw sec2) = Except.ok dr := by
  unfold _load at h
  cases hR : _load_resolve fileArg dataArg sec2 nf fs with
  | error e =>
    rw [hR] at h
    simp only [pybind_error] at h
    exact absurd h (by simp)
  | ok rp =>
    obtain ⟨raw, fp0⟩ := rp
    rw [hR] at h
    simp only [pybind_ok] at h
    cases hm : _load_merge ev cF scF skF dflt raw (sectionsToLoad dflt raw sec2) with
    | error e =>
      rw [hm] at h
      simp only [pybind_error] at h
      exact absurd h (by simp)
    | ok dr2 =>
      rw [hm] at h
      simp only [pybind_ok, Except.ok.injEq, Prod.mk.injEq] at h
      obtain ⟨h1, h2⟩ := h
      subst h1
      subst h2
      exact ⟨raw, rfl, hm⟩

theorem load_ok_default_isSome (ev : EvalFn) (cF scF skF nf : Bool) (dflt : ConfigData)
    (fileArg : Option String) (dataArg : Option RawDict) (fs : FS)
    (dr : ConfigData) (fp : Option String)
    (h : _load ev cF scF skF dflt fileArg dataArg Option.none nf fs = Except.ok (dr, fp)) :
    (dGet dr DEFAULTSECT).isSome := by
  obtain ⟨raw, _, hm⟩ := load_ok_merge ev cF scF skF nf dflt fileArg dataArg
    Option.none fs dr fp h
  exact loadMerge_ok_isSome ev cF scF skF dflt raw _ dr hm DEFAULTSECT
    (DEFAULTSECT_mem_sectionsToLoad dflt raw)

theorem init_configdict_default_none (sec : String) :
    _init_configdict [(sec, PyVal.dict [])] (Option.some sec) = Except.ok [(sec, [])] := by
  simp [_init_configdict, _have_section, PyVal.isDict, PyVal.asDict, normalizeSections, dSet]

theorem isSome_dGet_dSet_of {α : Type} (d : StrMap α) (k t : String) (v : α)
    (h : (dGet d t).isSome) : (dGet (dSet d k v) t).isSome := by
  rw [dGet_dSet]
  by_cases he : k = t
  · simp [he]
  · simp [he, h]

theorem setItem_preserves_sections (c : Config) (k : String) (v : PyVal) (c2 : Config)
    (h : Config.setItem c k v = Except.ok c2) (t : String)
    (hsome : (dGet c.data t).isSome) : (dGet c2.data t).isSome := by
  unfold Config.setItem at h
  have finish0 : ∀ (dat : StrMap (StrMap PyVal)) (x : StrMap PyVal),
      (∀ u, (dGet c.data u).isSome → (dGet dat u).isSome) →
      c2.data = dSet dat c.sectionName x →
      (dGet c2.data t).isSome := by
    intro dat x hdat hc2
    rw [hc2]
    exact isSome_dGet_dSet_of _ _ _ _ (hdat t hsome)
  have hself : ∀ u, (dGet c.data u).isSome → (dGet c.data u).isSome := fun _ hu => hu
  have hext : ∀ u, (dGet c.data u).isSome →
      (dGet (dSet c.data c.sectionName []) u).isSome :=
    fun u hu => isSome_dGet_dSet_of _ _ _ _ hu
  have main : ∀ (dat : StrMap (StrMap PyVal)),
      (∀ u, (dGet c.data u).isSome → (dGet dat u).isSome) →
      (do
        let ds := (dGet dat c.sectionName).getD []
        if dHas ds (pyLower k) then do
          let v2 ← setItemCastVal c ((dGet ds (pyLower k)).getD v) v
          Except.ok { c with data := dSet dat c.sectionName (dSet ds (pyLower k) v2) }
        else if c._strict_key then Except.error (PyErr.keyError (pyLower k))
        else Except.ok { c with data := dSet dat c.sectionName (dSet ds (pyLower k) v) })
        = Except.ok c2 →
      (dGet c2.data t).isSome := by
    intro dat hdat h0
    by_cases h2 : dHas ((dGet dat c.sectionName).getD []) (pyLower k) = true
    · rw [if_pos h2] at h0
      cases hcv : setItemCastVal c
          ((dGet ((dGet dat c.sectionName).getD []) (pyLower k)).getD v) v with
      | error e =>
        rw [hcv] at h0
        simp only [pybind_error] at h0
        exact absurd h0 (by simp)
      | ok w =>
        rw [hcv] at h0
        simp only [pybind_ok, Except.ok.injEq] at h0
        exact finish0 dat _ hdat (by rw [← h0])
    · rw [if_neg h2] at h0
      by_cases h5 : c._strict_key = true
      · rw [if_pos h5] at h0
        exact absurd h0 (by simp)
      · rw [if_neg h5] at h0
        simp only [Except.ok.injEq] at h0
        exact finish0 dat _ hdat (by rw [← h0])
  by_cases h1 : dHas c.data c.sectionName = true
  · rw [if_pos h1] at h
    simp only [pybind_ok] at h
    exact main c.data hself h
  · rw [if_neg h1] at h
    by_cases h5 : c._strict_key = true
    · rw [if_pos h5] at h
      simp only [pybind_error] at h
      exact absurd h (by simp)
    · rw [if_neg h5] at h
      simp only [pybind_ok] at h
      exact main (dSet c.data c.sectionName []) hext h

/-- C4 amended.  The reserved default section is not always present in
both mappings: the loader force-includes it in `ConfigData` whenever the
source is an in-memory mapping or a storage path, and item assignment
never removes a section once present; but with the source absent the data
is exactly `{section: {}}`, and with the `default` argument omitted
`DefaultData` contains the reserved section exactly when the requested
section is the reserved name. -/
theorem c4_amended :
    (∀ ev fs d0 sec nf dArg cF scF skF c,
        Config.init ev fs (.mem d0) sec nf dArg cF scF skF = Except.ok c →
        (dGet c.data DEFAULTSECT).isSome)
    ∧ (∀ ev fs p sec nf dArg cF scF skF c,
        Config.init ev fs (.file p) sec nf dArg cF scF skF = Except.ok c →
        (dGet c.data DEFAULTSECT).isSome)
    ∧ (∀ ev fs sec nf dArg cF scF skF c,
        Config.init ev fs Source.nil sec nf dArg cF scF skF = Except.ok c →
        c.data = [(sec, [])])
    ∧ (∀ ev fs src sec nf cF scF skF c,
        Config.init ev fs src sec nf Option.none cF scF skF = Except.ok c →
        ((dGet c.default DEFAULTSECT).isSome ↔ sec = DEFAULTSECT))
    ∧ (∀ c k v c2, Config.setItem c k v = Except.ok c2 →
        (dGet c.data DEFAULTSECT).isSome → (dGet c2.data DEFAULTSECT).isSome) := by
  have hdflt : ∀ (dArg : Option RawDict) (sec : String),
      ∃ dflt, _init_configdict (defaultRawOf dArg sec) (Option.some sec) = Except.ok dflt :=
    fun dArg sec => init_configdict_some_isOk (defaultRawOf dArg sec) sec
  have extract_mem : ∀ ev fs d0 sec nf dArg cF scF skF c,
      Config.init ev fs (.mem d0) sec nf dArg cF scF skF = Except.ok c →
      ∃ dflt r, _init_configdict (defaultRawOf dArg sec) (Option.some sec) = Except.ok dflt
        ∧ _load ev cF scF skF dflt Option.none
            (Option.some (if _have_section d0 then d0 else [(sec, PyVal.dict d0)]))
            Option.none false fs = Except.ok r
        ∧ c.data = r.1 ∧ c.default = dflt := by
    intro ev fs d0 sec nf dArg cF scF skF c h
    obtain ⟨dflt, hd⟩ := hdflt dArg sec
    rw [config_init_mem_eq ev fs d0 sec nf dArg cF scF skF dflt hd] at h
    cases hl : _load ev cF scF skF dflt Option.none
        (Option.some (if _have_section d0 then d0 else [(sec, PyVal.dict d0)]))
        Option.none false fs with
    | error e => rw [hl] at h; exact absurd h (by simp [Except.bind])
    | ok r =>
      rw [hl] at h
      simp only [Except.bind, Except.ok.injEq] at h
      exact ⟨dflt, r, hd, hl, by rw [← h], by rw [← h]⟩
  have extract_file : ∀ ev fs p sec nf dArg cF scF skF c,
      Config.init ev fs (.file p) sec nf dArg cF scF skF = Except.ok c →
      ∃ dflt r, _init_configdict (defaultRawOf dArg sec) (Option.some sec) = Except.ok dflt
        ∧ _load ev cF scF skF dflt (Option.some p) Option.none
            Option.none nf fs = Except.ok r
        ∧ c.data = r.1 ∧ c.default = dflt := by
    intro ev fs p sec nf dArg cF scF skF c h
    obtain ⟨dflt, hd⟩ := hdflt dArg sec
    rw [config_init_file_eq ev fs p sec nf dArg cF scF skF dflt hd] at h
    cases hl : _load ev cF scF skF dflt (Option.some p) Option.none
        Option.none nf fs with
    | error e => rw [hl] at h; exact absurd h (by simp [Except.bind])
    | ok r =>
      rw [hl] at h
      simp only [Except.bind, Except.ok.injEq] at h
      exact ⟨dflt, r, hd, hl, by rw [← h], by rw [← h]⟩
  refine ⟨?_, ?_, ?_, ?_, ?_⟩
  · intro ev fs d0 sec nf dArg cF scF skF c h
    obtain ⟨dflt, r, hd, hl, hdata, _⟩ := extract_mem ev fs d0 sec nf dArg cF scF skF c h
    rw [hdata]
    exact load_ok_default_isSome ev cF scF skF false dflt Option.none _ fs r.1 r.2 hl
  · intro ev fs p sec nf dArg cF scF skF c h
    obtain ⟨dflt, r, hd, hl, hdata, _⟩ := extract_file ev fs p sec nf dArg cF scF skF c h
    rw [hdata]
    exact load_ok_default_isSome ev cF scF skF nf dflt (Option.some p) Option.none fs
      r.1 r.2 hl
  · intro ev fs sec nf dArg cF scF skF c h
    obtain ⟨dflt, hd⟩ := hdflt dArg sec
    rw [config_init_nil_eq ev fs sec nf dArg cF scF skF dflt hd] at h
    simp only [Except.ok.injEq] at h
    rw [← h]
  · intro ev fs src sec nf cF scF skF c h
    have hd : _init_configdict (defaultRawOf Option.none sec) (Option.some sec)
        = Except.ok [(sec, [])] := by
      simpa [defaultRawOf] using init_configdict_default_none sec
    have hdef : c.default = [(sec, [])] := by
      cases src with
      | nil =>
        rw [config_init_nil_eq ev fs sec nf Option.none cF scF skF [(sec, [])] hd] at h
        simp only [Except.ok.injEq] at h
        rw [← h]
      | mem d0 =>
        obtain ⟨dflt, r, hd2, _, _, hdefault⟩ :=
          extract_mem ev fs d0 sec nf Option.none cF scF skF c h
        rw [hd] at hd2
        simp only [Except.ok.injEq] at hd2
        rw [hdefault, hd2]
      | file p =>
        obtain ⟨dflt, r, hd2, _, _, hdefault⟩ :=
          extract_file ev fs p sec nf Option.none cF scF skF c h
        rw [hd] at hd2
        simp only [Except.ok.injEq] at hd2
        rw [hdefault, hd2]
    rw [hdef]
    by_cases he : sec = DEFAULTSECT
    · simp [dGet, he]
    · simp [dGet, he]
  · intro c k v c2 h hsome
    exact setItem_preserves_sections c k v c2 h DEFAULTSECT hsome

/-- C4 amended witness: the amended parts applied at concrete inputs —
an in-memory construction under section `"a"` has the reserved section in
its data, and the source-absent construction under `"a"` has data exactly
`{"a": {}}`. -/
theorem c4_amended_witness :
    (∀ c, Config.init evalStub [] (.mem [("k", PyVal.str "v")]) "a" false Option.none
        false false false = Except.ok c → (dGet c.data DEFAULTSECT).isSome)
    ∧ (∀ c, Config.init evalStub [] Source.nil "a" false Option.none false false false
        = Except.ok c → c.data = [("a", [])]) := by
  constructor
  · intro c h
    exact c4_amended.1 evalStub [] [("k", PyVal.str "v")] "a" false Option.none
      false false false c h
  · intro c h
    exact c4_amended.2.2.1 evalStub [] "a" false Option.none false false false c h

/-- C9 amended.  A `leave`/`cancel`/`no` save (their one-letter forms and
any letter case included) performs no write only when the destination
already exists: the call then returns successfully with the store and the
file system unchanged.  When the destination does not exist, the mode is
never consulted: save writes the scoped data unconditionally, creating
the destination file. -/
theorem c9_amended :
    (∀ (ev : EvalFn) (now ans : String) (c : Config) (fs : FS) (p : String)
        (orig : IniFile) (secArg : Option String) (mode : String) (keep : Bool),
        dGet fs p = Option.some orig →
        (pyLower mode = "l" ∨ pyLower mode = "leave" ∨ pyLower mode = "c"
          ∨ pyLower mode = "cancel" ∨ pyLower mode = "n" ∨ pyLower mode = "no") →
        (secArg = Option.none
          ∨ ∃ t ds, secArg = Option.some t ∧ dGet c.data t = Option.some ds) →
        Config.save ev now ans c fs (Option.some p) secArg mode keep = Except.ok (c, fs))
    ∧ (∀ (ev : EvalFn) (now ans : String) (c : Config) (fs : FS) (p : String)
        (mode : String) (keep : Bool),
        dGet fs p = Option.none →
        Config.save ev now ans c fs (Option.some p) Option.none mode keep
          = Except.ok (c, dSet fs p (parserWrite c.data))) := by
  constructor
  · intro ev now ans c fs p orig secArg mode keep hfs hmode hscope
    rcases hscope with hsec | ⟨t, ds, ht, hds⟩
    · subst hsec
      rcases hmode with hm | hm | hm | hm | hm | hm <;>
        simp [Config.save, hfs, hm, pybind_ok]
    · subst ht
      rcases hmode with hm | hm | hm | hm | hm | hm <;>
        simp [Config.save, hfs, hds, hm, pybind_ok]
  · intro ev now ans c fs p mode keep hfs
    simp [Config.save, hfs, pybind_ok]

/-- C9 amended witness: a `"Cancel"`-mode save against an existing
destination leaves everything unchanged. -/
theorem c9_amended_witness :
    Config.save evalStub "TS" "" c9WConfig c9WFs (Option.some "w.ini") Option.none
      "Cancel" true = Except.ok (c9WConfig, c9WFs) :=
  c9_amended.1 evalStub "TS" "" c9WConfig c9WFs "w.ini" [(DEFAULTSECT, [])]
    Option.none "Cancel" true rfl
    (Or.inr (Or.inr (Or.inr (Or.inl rfl)))) (Or.inl rfl)

/-- C6 amended.  The no-op and idempotence properties hold for the
string, integer and float default types: casting a value that already has
the default's type returns it unchanged, and a successful cast is a fixed
point of the cast.  For the `bool`, `list`, `tuple`, `set` and `dict`
default types, casting a value already of the default's type instead
raises an `AttributeError` (the routine assumes its input is a string),
which is the counterexample. -/
theorem c6_amended :
    (∀ (ev : EvalFn) (sc : Bool) (v : PyVal) (s0 : String),
        _cast_value ev sc v (.str s0) = Except.ok v)
    ∧ (∀ (ev : EvalFn) (sc : Bool) (n m : Int),
        _cast_value ev sc (.int n) (.int m) = Except.ok (.int n))
    ∧ (∀ (ev : EvalFn) (sc : Bool) (q r : Rat),
        _cast_value ev sc (.float q) (.float r) = Except.ok (.float q))
    ∧ (∀ (ev : EvalFn) (sc : Bool) (v d v2 : PyVal),
        ((∃ s, d = PyVal.str s) ∨ (∃ n, d = PyVal.int n) ∨ (∃ q, d = PyVal.float q)) →
        _cast_value ev sc v d = Except.ok v2 →
        _cast_value ev sc v2 d = Except.ok v2) := by
  have hstr : ∀ (ev : EvalFn) (sc : Bool) (v : PyVal) (s0 : String),
      _cast_value ev sc v (.str s0) = Except.ok v := fun _ _ _ _ => rfl
  have hint : ∀ (ev : EvalFn) (sc : Bool) (n m : Int),
      _cast_value ev sc (.int n) (.int m) = Except.ok (.int n) := fun _ _ _ _ => rfl
  have hflt : ∀ (ev : EvalFn) (sc : Bool) (q r : Rat),
      _cast_value ev sc (.float q) (.float r) = Except.ok (.float q) := fun _ _ _ _ => rfl
  have hboolToInt : ∀ (ev : EvalFn) (sc : Bool) (b : Bool) (m : Int),
      _cast_value ev sc (.bool b) (.int m) = Except.ok (.int (if b then 1 else 0)) := by
    intro ev sc b m
    cases b <;> rfl
  have hfltToInt : ∀ (ev : EvalFn) (sc : Bool) (r : Rat) (m : Int),
      _cast_value ev sc (.float r) (.int m) = Except.ok (.int (ratTrunc r)) :=
    fun _ _ _ _ => rfl
  have hintToFlt : ∀ (ev : EvalFn) (sc : Bool) (n : Int) (r : Rat),
      _cast_value ev sc (.int n) (.float r) = Except.ok (.float (n : Rat)) :=
    fun _ _ _ _ => rfl
  have hboolToFlt : ∀ (ev : EvalFn) (sc : Bool) (b : Bool) (r : Rat),
      _cast_value ev sc (.bool b) (.float r) = Except.ok (.float (if b then 1 else 0)) := by
    intro ev sc b r
    cases b <;> rfl
  refine ⟨hstr, hint, hflt, ?_⟩
  rintro ev sc v d v2 (⟨s, rfl⟩ | ⟨n, rfl⟩ | ⟨q, rfl⟩) h
  · rw [hstr] at h
    injection h with h
    subst h
    exact hstr ev sc _ s
  · cases v with
    | int k =>
      rw [hint] at h
      injection h with h
      subst h
      exact hint ev sc k n
    | bool b =>
      rw [hboolToInt] at h
      injection h with h
      subst h
      exact hint ev sc _ n
    | float r =>
      rw [hfltToInt] at h
      injection h with h
      subst h
      exact hint ev sc _ n
    | str s =>
      cases hp : pyParseInt s with
      | some k =>
        rw [show _cast_value ev sc (.str s) (.int n) = Except.ok (.int k) from by
          simp [_cast_value, pyInt, hp]] at h
        injection h with h
        subst h
        exact hint ev sc k n
      | none =>
        cases sc with
        | true =>
          rw [show _cast_value ev true (.str s) (.int n)
              = Except.error (.valueError ("invalid literal for int(): " ++ s)) from by
            simp [_cast_value, pyInt, hp]] at h
          exact absurd h (by simp)
        | false =>
          rw [show _cast_value ev false (.str s) (.int n) = Except.ok (.str s) from by
            simp [_cast_value, pyInt, hp]] at h
          injection h with h
          subst h
          rw [show _cast_value ev false (.str s) (.int n) = Except.ok (.str s) from by
            simp [_cast_value, pyInt, hp]]
    | list l => exact absurd h (by simp [_cast_value, pyInt])
    | tuple l => exact absurd h (by simp [_cast_value, pyInt])
    | set l => exact absurd h (by simp [_cast_value, pyInt])
    | dict l => exact absurd h (by simp [_cast_value, pyInt])
  · cases v with
    | float r =>
      rw [hflt] at h
      injection h with h
      subst h
      exact hflt ev sc r q
    | int k =>
      rw [hintToFlt] at h
      injection h with h
      subst h
      exact hflt ev sc _ q
    | bool b =>
      rw [hboolToFlt] at h
      injection h with h
      subst h
      exact hflt ev sc _ q
    | str s =>
      cases hp : pyParseFloat s with
      | some k =>
        rw [show _cast_value ev sc (.str s) (.float q) = Except.ok (.float k) from by
          simp [_cast_value, pyFloat, hp]] at h
        injection h with h
        subst h
        exact hflt ev sc k q
      | none =>
        cases sc with
        | true =>
          rw [show _cast_value ev true (.str s) (.float q)
              = Except.error (.valueError ("could not convert string to float: " ++ s)) from by
            simp [_cast_value, pyFloat, hp]] at h
          exact absurd h (by simp)
        | false =>
          rw [show _cast_value ev false (.str s) (.float q) = Except.ok (.str s) from by
            simp [_cast_value, pyFloat, hp]] at h
          injection h with h
          subst h
          rw [show _cast_value ev false (.str s) (.float q) = Except.ok (.str s) from by
            simp [_cast_value, pyFloat, hp]]
    | list l => exact absurd h (by simp [_cast_value, pyFloat])
    | tuple l => exact absurd h (by simp [_cast_value, pyFloat])
    | set l => exact absurd h (by simp [_cast_value, pyFloat])
    | dict l => exact absurd h (by simp [_cast_value, pyFloat])

/-- C6 amended witness: a concrete successful int cast (`"5"` under an
int default) is a fixed point of the cast. -/
theorem c6_amended_witness :
    _cast_value evalStub false (PyVal.str "5") (PyVal.int 0) = Except.ok (PyVal.int 5)
    ∧ _cast_value evalStub false (PyVal.int 5) (PyVal.int 0) = Except.ok (PyVal.int 5) := by
  have h1 : _cast_value evalStub false (PyVal.str "5") (PyVal.int 0)
      = Except.ok (PyVal.int 5) := rfl
  exact ⟨h1, c6_amended.2.2.2 evalStub false (PyVal.str "5") (PyVal.int 0) (PyVal.int 5)
    (Or.inr (Or.inl ⟨0, rfl⟩)) h1⟩

theorem dHas_true_of_dGet {α : Type} (d : StrMap α) (k : String) (v : α)
    (h : dGet d k = Option.some v) : dHas d k = true := by
  rw [dHas_eq_isSome_dGet, h]
  rfl

theorem setItem_eq_of_castVal_ok (c : Config) (k : String) (v : PyVal)
    (ds : StrMap PyVal) (w : PyVal)
    (hds : dGet c.data c.sectionName = Option.some ds)
    (hhas : dHas ds (pyLower k) = true)
    (hcv : setItemCastVal c ((dGet ds (pyLower k)).getD v) v = Except.ok w) :
    Config.setItem c k v = Except.ok
      { c with data := dSet c.data c.sectionName (dSet ds (pyLower k) w) } := by
  unfold Config.setItem
  rw [if_pos (dHas_true_of_dGet c.data c.sectionName ds hds)]
  simp only [pybind_ok, hds, Option.getD_some, hhas, if_true, hcv]

theorem setItem_eq_of_castVal_error (c : Config) (k : String) (v : PyVal)
    (ds : StrMap PyVal) (e : PyErr)
    (hds : dGet c.data c.sectionName = Option.some ds)
    (hhas : dHas ds (pyLower k) = true)
    (hcv : setItemCastVal c ((dGet ds (pyLower k)).getD v) v = Except.error e) :
    Config.setItem c k v = Except.error e := by
  unfold Config.setItem
  rw [if_pos (dHas_true_of_dGet c.data c.sectionName ds hds)]
  simp only [pybind_ok, hds, Option.getD_some, hhas, if_true, hcv, pybind_error]

/-- C5 amended.  With `cast` enabled, `__setitem__` coerces the assigned
value with the plain constructor of the currently stored value's runtime
type, not the §4.2 rules over the default's declared type: for a
bool-valued key the stored result is the truthiness of the assigned
string (so `"false"` stores `True`) and no error is ever raised; for an
int-valued key an unparseable string raises `ValueError` when
`strict_cast` is set and otherwise stores the original string with no
diagnostic. -/
theorem c5_amended :
    (∀ (c : Config) (k s : String) (ds : StrMap PyVal) (b : Bool),
        c._cast = true →
        dGet c.data c.sectionName = Option.some ds →
        dGet ds (pyLower k) = Option.some (PyVal.bool b) →
        ∃ c2, Config.setItem c k (.str s) = Except.ok c2
          ∧ dGet2 c2.data c.sectionName (pyLower k)
              = Option.some (PyVal.bool (!s.isEmpty)))
    ∧ (∀ (c : Config) (k s : String) (ds : StrMap PyVal) (m : Int),
        c._cast = true → c._strict_cast = true →
        dGet c.data c.sectionName = Option.some ds →
        dGet ds (pyLower k) = Option.some (PyVal.int m) →
        pyParseInt s = Option.none →
        Config.setItem c k (.str s)
          = Except.error (.valueError ("invalid literal for int(): " ++ s)))
    ∧ (∀ (c : Config) (k s : String) (ds : StrMap PyVal) (m : Int),
        c._cast = true → c._strict_cast = false →
        dGet c.data c.sectionName = Option.some ds →
        dGet ds (pyLower k) = Option.some (PyVal.int m) →
        pyParseInt s = Option.none →
        ∃ c2, Config.setItem c k (.str s) = Except.ok c2
          ∧ dGet2 c2.data c.sectionName (pyLower k) = Option.some (PyVal.str s)) := by
  refine ⟨?_, ?_, ?_⟩
  · intro c k s ds b hcast hds hget
    have hcv : setItemCastVal c ((dGet ds (pyLower k)).getD (.str s)) (.str s)
        = Except.ok (PyVal.bool (!s.isEmpty)) := by
      rw [hget]
      simp [setItemCastVal, hcast, pyConstruct, pyTruthy]
    refine ⟨_, setItem_eq_of_castVal_ok c k (.str s) ds _ hds
      (dHas_true_of_dGet ds (pyLower k) _ hget) hcv, ?_⟩
    show dGet2 (dSet c.data c.sectionName (dSet ds (pyLower k) _)) c.sectionName
      (pyLower k) = _
    unfold dGet2
    rw [dGet_dSet_self]
    simp only [Option.some_bind]
    rw [dGet_dSet_self]
  · intro c k s ds m hcast hsc hds hget hp
    have hcv : setItemCastVal c ((dGet ds (pyLower k)).getD (.str s)) (.str s)
        = Except.error (.valueError ("invalid literal for int(): " ++ s)) := by
      rw [hget]
      simp [setItemCastVal, hcast, hsc, pyConstruct, pyInt, hp]
    exact setItem_eq_of_castVal_error c k (.str s) ds _ hds
      (dHas_true_of_dGet ds (pyLower k) _ hget) hcv
  · intro c k s ds m hcast hsc hds hget hp
    have hcv : setItemCastVal c ((dGet ds (pyLower k)).getD (.str s)) (.str s)
        = Except.ok (PyVal.str s) := by
      rw [hget]
      simp [setItemCastVal, hcast, hsc, pyConstruct, pyInt, hp]
    refine ⟨_, setItem_eq_of_castVal_ok c k (.str s) ds _ hds
      (dHas_true_of_dGet ds (pyLower k) _ hget) hcv, ?_⟩
    show dGet2 (dSet c.data c.sectionName (dSet ds (pyLower k) _)) c.sectionName
      (pyLower k) = _
    unfold dGet2
    rw [dGet_dSet_self]
    simp only [Option.some_bind]
    rw [dGet_dSet_self]

/-- C5 amended witness: on a store whose current section holds
`b = True` with `cast` and `strict_cast` enabled, assigning the string
`"false"` succeeds and stores boolean `True` (its truthiness). -/
theorem c5_amended_witness :
    ∃ c2, Config.setItem
        ⟨true, true, false, Option.none, [(DEFAULTSECT, [("b", PyVal.bool true)])],
          [(DEFAULTSECT, [("b", PyVal.bool true)])], DEFAULTSECT⟩
        "b" (.str "false") = Except.ok c2
      ∧ dGet2 c2.data DEFAULTSECT (pyLower "b")
          = Option.some (PyVal.bool (!("false".isEmpty))) := by
  exact c5_amended.1
    ⟨true, true, false, Option.none, [(DEFAULTSECT, [("b", PyVal.bool true)])],
      [(DEFAULTSECT, [("b", PyVal.bool true)])], DEFAULTSECT⟩
    "b" "false" [("b", PyVal.bool true)] true rfl rfl rfl

theorem castSectionStep_error (ev : EvalFn) (sc : Bool) (dflt : ConfigData) (s : String)
    (e : PyErr) (k : String) :
    castSectionStep ev sc dflt s (Except.error e) k = Except.error e := rfl

theorem castSectionFold_error (ev : EvalFn) (sc : Bool) (dflt : ConfigData) (s : String)
    (l : List String) (e : PyErr) :
    l.foldl (castSectionStep ev sc dflt s) (Except.error e) = Except.error e := by
  induction l with
  | nil => rfl
  | cons k l ih => rw [List.foldl_cons, castSectionStep_error]; exact ih

theorem castSectionStep_nodflt (ev : EvalFn) (sc : Bool) (dflt : ConfigData) (s : String)
    (cur : StrMap PyVal) (k : String) (hdef : dGet dflt s = Option.none) :
    castSectionStep ev sc dflt s (Except.ok cur) k = Except.error (.keyError s) := by
  simp [castSectionStep, pybind_ok, hdef]

theorem castSectionStep_skip (ev : EvalFn) (sc : Bool) (dflt : ConfigData) (s : String)
    (cur : StrMap PyVal) (k : String) (defS : StrMap PyVal)
    (hdef : dGet dflt s = Option.some defS) (hk : dHas defS k = false) :
    castSectionStep ev sc dflt s (Except.ok cur) k = Except.ok cur := by
  simp [castSectionStep, pybind_ok, hdef, hk]

theorem castSectionFold_char (ev : EvalFn) (sc : Bool) (dflt : ConfigData) (s : String)
    (defS : StrMap PyVal) (hdef : dGet dflt s = Option.some defS) :
    ∀ (l : List String) (cur ds2 : StrMap PyVal), l.Nodup →
      l.foldl (castSectionStep ev sc dflt s) (Except.ok cur) = Except.ok ds2 →
      (∀ k, k ∉ l → dGet ds2 k = dGet cur k)
      ∧ (∀ k, k ∈ l →
          (dHas defS k = false → dGet ds2 k = dGet cur k)
          ∧ (∀ v vd, dGet cur k = Option.some v → dGet defS k = Option.some vd →
              ∃ w, _cast_value ev sc v vd = Except.ok w ∧ dGet ds2 k = Option.some w)) := by
  intro l
  induction l with
  | nil =>
    intro cur ds2 hnd h
    simp only [List.foldl_nil, Except.ok.injEq] at h
    subst h
    exact ⟨fun k _ => rfl, fun k hk => absurd hk (List.not_mem_nil k)⟩
  | cons k0 l ih =>
    intro cur ds2 hnd h
    rw [List.foldl_cons] at h
    rw [List.nodup_cons] at hnd
    by_cases hk0 : dHas defS k0 = true
    · cases hv : dGet cur k0 with
      | none =>
        rw [show castSectionStep ev sc dflt s (Except.ok cur) k0
            = Except.error (.keyError k0) from by
          simp [castSectionStep, pybind_ok, hdef, hk0, hv, pybind_error]] at h
        rw [castSectionFold_error] at h
        exact absurd h (by simp)
      | some v =>
        have hvdS : (dGet defS k0).isSome := by
          rw [← dHas_eq_isSome_dGet]
          exact hk0
        cases hvd2 : dGet defS k0 with
        | none => rw [hvd2] at hvdS; simp at hvdS
        | some vd =>
          cases hw : _cast_value ev sc v vd with
          | error e =>
            rw [show castSectionStep ev sc dflt s (Except.ok cur) k0
                = Except.error e from by
              simp [castSectionStep, pybind_ok, hdef, hk0, hv, hvd2, hw, pybind_error]] at h
            rw [castSectionFold_error] at h
            exact absurd h (by simp)
          | ok w =>
            rw [show castSectionStep ev sc dflt s (Except.ok cur) k0
                = Except.ok (dSet cur k0 w) from by
              simp [castSectionStep, pybind_ok, hdef, hk0, hv, hvd2, hw]] at h
            obtain ⟨hout, hin⟩ := ih (dSet cur k0 w) ds2 hnd.2 h
            constructor
            · intro k hk
              have hk1 : ¬ k = k0 := fun hc => hk (hc ▸ List.mem_cons_self k0 l)
              have hk2 : k ∉ l := fun hc => hk (List.mem_cons_of_mem k0 hc)
              rw [hout k hk2, dGet_dSet_ne cur k0 k w (fun hc => hk1 hc.symm)]
            · intro k hk
              rcases List.mem_cons.mp hk with hke | hkl
              · subst hke
                constructor
                · intro hfalse
                  rw [hfalse] at hk0
                  cases hk0
                · intro v2 vd2 hv2 hvd3
                  rw [hv] at hv2
                  injection hv2 with hv2
                  subst hv2
                  rw [hvd2] at hvd3
                  injection hvd3 with hvd3
                  subst hvd3
                  refine ⟨w, hw, ?_⟩
                  rw [hout k hnd.1, dGet_dSet_self]
              · have hk1 : ¬ k = k0 := fun hc => hnd.1 (hc ▸ hkl)
                have hcur2 : dGet (dSet cur k0 w) k = dGet cur k :=
                  dGet_dSet_ne cur k0 k w (fun hc => hk1 hc.symm)
                obtain ⟨p1, p2⟩ := hin k hkl
                refine ⟨fun hf => by rw [p1 hf, hcur2], ?_⟩
                intro v2 vd2 hv2 hvd3
                exact p2 v2 vd2 (by rw [hcur2, hv2]) hvd3
    · have hk0f : dHas defS k0 = false := by simpa using hk0
      rw [castSectionStep_skip ev sc dflt s cur k0 defS hdef hk0f] at h
      obtain ⟨hout, hin⟩ := ih cur ds2 hnd.2 h
      constructor
      · intro k hk
        exact hout k (fun hc => hk (List.mem_cons_of_mem k0 hc))
      · intro k hk
        rcases List.mem_cons.mp hk with hke | hkl
        · subst hke
          refine ⟨fun _ => hout k hnd.1, ?_⟩
          intro v2 vd2 hv2 hvd3
          exfalso
          have := dHas_true_of_dGet defS k vd2 hvd3
          rw [this] at hk0f
          cases hk0f
        · exact hin k hkl

theorem castSectionAll_shape (ev : EvalFn) (sc : Bool) (dflt dat : ConfigData)
    (s : String) (dat2 : ConfigData)
    (h : castSectionAll ev sc dflt dat s = Except.ok dat2) :
    ∃ ds ds2, dGet dat s = Option.some ds
      ∧ (dKeys ds).foldl (castSectionStep ev sc dflt s) (Except.ok ds) = Except.ok ds2
      ∧ dat2 = dSet dat s ds2 := by
  cases hds : dGet dat s with
  | none => simp [castSectionAll, hds] at h
  | some ds =>
    simp only [castSectionAll, hds] at h
    cases hfold : (dKeys ds).foldl (castSectionStep ev sc dflt s) (Except.ok ds) with
    | error e => rw [hfold] at h; simp [Except.map] at h
    | ok ds2 =>
      rw [hfold] at h
      simp only [Except.map, Except.ok.injEq] at h
      exact ⟨ds, ds2, rfl, hfold, h.symm⟩

theorem castSectionAll_covered (ev : EvalFn) (sc : Bool) (dflt dat : ConfigData)
    (s : String) (dat2 : ConfigData) (ds : StrMap PyVal)
    (h : castSectionAll ev sc dflt dat s = Except.ok dat2)
    (hds : dGet dat s = Option.some ds) (hne : ds ≠ []) :
    (dGet dflt s).isSome := by
  obtain ⟨ds0, ds2, hds0, hfold, _⟩ := castSectionAll_shape ev sc dflt dat s dat2 h
  rw [hds] at hds0
  injection hds0 with hds0
  subst hds0
  cases hdef : dGet dflt s with
  | some defS => rfl
  | none =>
    exfalso
    cases hds1 : ds with
    | nil => exact hne hds1
    | cons p rest =>
      rw [hds1] at hfold
      rw [show dKeys (p :: rest) = p.1 :: dKeys rest from rfl, List.foldl_cons,
        castSectionStep_nodflt ev sc dflt s _ p.1 hdef, castSectionFold_error] at hfold
      exact absurd hfold (by simp)

theorem castSectionAll_char (ev : EvalFn) (sc : Bool) (dflt dat : ConfigData)
    (s : String) (dat2 : ConfigData) (ds : StrMap PyVal)
    (h : castSectionAll ev sc dflt dat s = Except.ok dat2)
    (hds : dGet dat s = Option.some ds) (hnd : (dKeys ds).Nodup) :
    ∃ ds2, dat2 = dSet dat s ds2
      ∧ (∀ k v, dGet ds k = Option.some v →
          dHas ((dGet dflt s).getD []) k = false → dGet ds2 k = Option.some v)
      ∧ (∀ k v vd, dGet ds k = Option.some v → dGet2 dflt s k = Option.some vd →
          ∃ w, _cast_value ev sc v vd = Except.ok w ∧ dGet ds2 k = Option.some w) := by
  obtain ⟨ds0, ds2, hds0, hfold, hdat2⟩ := castSectionAll_shape ev sc dflt dat s dat2 h
  rw [hds] at hds0
  injection hds0 with hds0
  subst hds0
  refine ⟨ds2, hdat2, ?_, ?_⟩
  · intro k v hv hfalse
    cases hdef : dGet dflt s with
    | none =>
      exfalso
      have : False := by
        have hne : ds ≠ [] := by
          intro hnil
          rw [hnil] at hv
          simp [dGet] at hv
        cases hds1 : ds with
        | nil => exact hne hds1
        | cons p rest =>
          rw [hds1] at hfold
          rw [show dKeys (p :: rest) = p.1 :: dKeys rest from rfl, List.foldl_cons,
            castSectionStep_nodflt ev sc dflt s _ p.1 hdef, castSectionFold_error] at hfold
          exact absurd hfold (by simp)
      exact this
    | some defS =>
      obtain ⟨_, hin⟩ := castSectionFold_char ev sc dflt s defS hdef
        (dKeys ds) ds ds2 hnd hfold
      have hk : k ∈ dKeys ds := mem_dKeys_of_dGet ds k v hv
      rw [hdef] at hfalse
      simp only [Option.getD_some] at hfalse
      rw [(hin k hk).1 hfalse, hv]
  · intro k v vd hv hvd
    cases hdef : dGet dflt s with
    | none =>
      exfalso
      unfold dGet2 at hvd
      rw [hdef] at hvd
      simp at hvd
    | some defS =>
      obtain ⟨_, hin⟩ := castSectionFold_char ev sc dflt s defS hdef
        (dKeys ds) ds ds2 hnd hfold
      have hk : k ∈ dKeys ds := mem_dKeys_of_dGet ds k v hv
      unfold dGet2 at hvd
      rw [hdef] at hvd
      simp only [Option.some_bind] at hvd
      exact (hin k hk).2 v vd hv hvd

theorem castOpStep_error (ev : EvalFn) (sc : Bool) (dflt : ConfigData)
    (key : Option String) (e : PyErr) (s : String) :
    castOpStep ev sc dflt key (Except.error e) s = Except.error e := rfl

theorem castOpFold_error (ev : EvalFn) (sc : Bool) (dflt : ConfigData)
    (key : Option String) (l : List String) (e : PyErr) :
    l.foldl (castOpStep ev sc dflt key) (Except.error e) = Except.error e := by
  induction l with
  | nil => rfl
  | cons s l ih => rw [List.foldl_cons, castOpStep_error]; exact ih

theorem castOpStep_none (ev : EvalFn) (sc : Bool) (dflt : ConfigData)
    (dat : ConfigData) (s : String) :
    castOpStep ev sc dflt Option.none (Except.ok dat) s
      = castSectionAll ev sc dflt dat s := rfl

theorem castOpFold_none_char (ev : EvalFn) (sc : Bool) (dflt : ConfigData) :
    ∀ (l : List String) (dat0 datF : ConfigData), l.Nodup →
      l.foldl (castOpStep ev sc dflt Option.none) (Except.ok dat0) = Except.ok datF →
      (∀ s, s ∉ l → dGet datF s = dGet dat0 s)
      ∧ (∀ s, s ∈ l → ∀ ds, dGet dat0 s = Option.some ds → (dKeys ds).Nodup →
          (ds ≠ [] → (dGet dflt s).isSome)
          ∧ ∃ ds2, dGet datF s = Option.some ds2
              ∧ (∀ k v, dGet ds k = Option.some v →
                  dHas ((dGet dflt s).getD []) k = false → dGet ds2 k = Option.some v)
              ∧ (∀ k v vd, dGet ds k = Option.some v → dGet2 dflt s k = Option.some vd →
                  ∃ w, _cast_value ev sc v vd = Except.ok w
                    ∧ dGet ds2 k = Option.some w)) := by
  intro l
  induction l with
  | nil =>
    intro dat0 datF hnd h
    simp only [List.foldl_nil, Except.ok.injEq] at h
    subst h
    exact ⟨fun s _ => rfl, fun s hs => absurd hs (List.not_mem_nil s)⟩
  | cons s0 l ih =>
    intro dat0 datF hnd h
    rw [List.foldl_cons, castOpStep_none] at h
    rw [List.nodup_cons] at hnd
    cases hstep : castSectionAll ev sc dflt dat0 s0 with
    | error e =>
      rw [hstep, castOpFold_error] at h
      exact absurd h (by simp)
    | ok dat1 =>
      rw [hstep] at h
      obtain ⟨hout, hin⟩ := ih dat1 datF hnd.2 h
      obtain ⟨ds0, ds2x, hds0, hfoldx, hdat1⟩ :=
        castSectionAll_shape ev sc dflt dat0 s0 dat1 hstep
      constructor
      · intro s hs
        have hs1 : ¬ s = s0 := fun hc => hs (hc ▸ List.mem_cons_self s0 l)
        have hs2 : s ∉ l := fun hc => hs (List.mem_cons_of_mem s0 hc)
        rw [hout s hs2, hdat1, dGet_dSet_ne dat0 s0 s ds2x (fun hc => hs1 hc.symm)]
      · intro s hs ds hds hndds
        rcases List.mem_cons.mp hs with hse | hsl
        · subst hse
          refine ⟨fun hne => castSectionAll_covered ev sc dflt dat0 s dat1 ds
            hstep hds hne, ?_⟩
          obtain ⟨ds2, hdat1b, hun, hto⟩ :=
            castSectionAll_char ev sc dflt dat0 s dat1 ds hstep hds hndds
          refine ⟨ds2, ?_, hun, hto⟩
          rw [hout s hnd.1, hdat1b, dGet_dSet_self]
        · have hs1 : ¬ s = s0 := fun hc => hnd.1 (hc ▸ hsl)
          have hpre : dGet dat1 s = dGet dat0 s := by
            rw [hdat1, dGet_dSet_ne dat0 s0 s ds2x (fun hc => hs1 hc.symm)]
          exact hin s hsl ds (by rw [hpre, hds]) hndds

/-- C7 amended.  `cast()` with no arguments anything but always succeeds:
a data section holding at least one key but absent from DefaultData makes
it raise `KeyError` (the counterexample).  When it does succeed, it
touches exactly the keys declared in the corresponding default section:
every data section is still present afterwards, a key with no default
keeps its value verbatim, and a key with a default holds the (successful)
cast of its previous value against that default. -/
theorem c7_amended (ev : EvalFn) (c c2 : Config)
    (h : Config.castOp ev c Option.none Option.none = Except.ok c2)
    (hnd : (dKeys c.data).Nodup) :
    ∀ s ds, dGet c.data s = Option.some ds → (dKeys ds).Nodup →
      (ds ≠ [] → (dGet c.default s).isSome)
      ∧ ∃ ds2, dGet c2.data s = Option.some ds2
          ∧ (∀ k v, dGet ds k = Option.some v →
              dHas ((dGet c.default s).getD []) k = false → dGet ds2 k = Option.some v)
          ∧ (∀ k v vd, dGet ds k = Option.some v → dGet2 c.default s k = Option.some vd →
              ∃ w, _cast_value ev c._strict_cast v vd = Except.ok w
                ∧ dGet ds2 k = Option.some w) := by
  intro s ds hds hndds
  simp only [Config.castOp] at h
  cases hf : (dKeys c.data).foldl
      (castOpStep ev c._strict_cast c.default Option.none) (Except.ok c.data) with
  | error e => rw [hf] at h; simp [Except.map] at h
  | ok datF =>
    rw [hf] at h
    simp only [Except.map, Except.ok.injEq] at h
    have hdata : c2.data = datF := by rw [← h]
    obtain ⟨_, hin⟩ := castOpFold_none_char ev c._strict_cast c.default
      (dKeys c.data) c.data datF hnd hf
    have hs : s ∈ dKeys c.data := mem_dKeys_of_dGet c.data s ds hds
    obtain ⟨hcov, ds2, hds2, hun, hto⟩ := hin s hs ds hds hndds
    exact ⟨hcov, ds2, by rw [hdata]; exact hds2, hun, hto⟩

/-- C7 amended witness: on the fixture, `cast()` succeeds and the key
with an integer default now holds the cast value. -/
theorem c7_amended_witness :
    ∃ ds2, dGet c7WAfter.data DEFAULTSECT = Option.some ds2
      ∧ dGet ds2 "n" = Option.some (PyVal.int 5) := by
  obtain ⟨hcov, ds2, hds2, hun, hto⟩ := c7_amended evalStub c7WConfig c7WAfter rfl
    (by simp [dKeys, c7WConfig]) DEFAULTSECT [("n", PyVal.str "5")] rfl
    (by simp [dKeys])
  obtain ⟨w, hw, hg⟩ := hto "n" (PyVal.str "5") (PyVal.int 0) rfl rfl
  rw [show _cast_value evalStub c7WConfig._strict_cast (PyVal.str "5") (PyVal.int 0)
      = Except.ok (PyVal.int 5) from rfl] at hw
  injection hw with hw
  subst hw
  exact ⟨ds2, hds2, hg⟩

theorem dHas_dSet {α : Type} (d : StrMap α) (k t : String) (v : α) :
    dHas (dSet d k v) t = ((k = t : Bool) || dHas d t) := by
  induction d with
  | nil => simp [dSet, dHas]
  | cons p ps ih =>
    by_cases h : p.1 = k
    · by_cases h2 : k = t
      · simp [dSet, dHas, h, h2]
      · subst h
        simp [dSet, dHas, h2]
    · simp only [dSet, h, if_false, dHas]
      rw [ih]
      by_cases h2 : p.1 = t <;> by_cases h3 : k = t <;> simp [h2, h3]

theorem dSet_of_not_has {α : Type} (d : StrMap α) (k : String) (v : α)
    (h : dHas d k = false) : dSet d k v = d ++ [(k, v)] := by
  induction d with
  | nil => simp [dSet]
  | cons p ps ih =>
    simp only [dHas, Bool.or_eq_false_iff] at h
    have h1 : ¬ p.1 = k := by
      intro hc
      rw [decide_eq_true hc] at h
      exact absurd h.1 (by simp)
    simp [dSet, h1, ih (h.2)]

theorem overlayStep_error (ev : EvalFn) (cF scF skF emptyF : Bool)
    (e : PyErr) (kv : String × PyVal) :
    _load_overlay_step ev cF scF skF emptyF (Except.error e) kv = Except.error e := rfl

theorem overlayFold_error (ev : EvalFn) (cF scF skF emptyF : Bool)
    (l : List (String × PyVal)) (e : PyErr) :
    l.foldl (_load_overlay_step ev cF scF skF emptyF) (Except.error e)
      = Except.error e := by
  induction l with
  | nil => rfl
  | cons kv l ih => rw [List.foldl_cons, overlayStep_error]; exact ih

theorem overlayFold_strict_nonempty_rejects (ev : EvalFn) (scF : Bool)
    (ds : StrMap PyVal) :
    ∀ (l : List (String × PyVal)) (cur : StrMap PyVal),
      (∀ t, dHas cur t = dHas ds t) →
      (∃ k, k ∈ dKeys l ∧ dHas ds k = false) →
      ∃ k2, l.foldl (_load_overlay_step ev false scF true false) (Except.ok cur)
        = Except.error (.keyError k2) := by
  intro l
  induction l with
  | nil =>
    rintro cur _ ⟨k, hk, _⟩
    simp [dKeys] at hk
  | cons kv l ih =>
    rintro cur hinv ⟨k, hk, hnot⟩
    rw [List.foldl_cons]
    by_cases hcur : dHas cur kv.1 = true
    · rw [show _load_overlay_step ev false scF true false (Except.ok cur) kv
          = Except.ok (dSet cur kv.1 kv.2) from by
        simp [_load_overlay_step, pybind_ok, hcur]]
      have hds1 : dHas ds kv.1 = true := by rw [← hinv kv.1]; exact hcur
      have hinv2 : ∀ t, dHas (dSet cur kv.1 kv.2) t = dHas ds t := by
        intro t
        rw [dHas_dSet]
        by_cases ht : kv.1 = t
        · subst ht; simp [hds1]
        · simp [ht, hinv t]
      refine ih (dSet cur kv.1 kv.2) hinv2 ⟨k, ?_, hnot⟩
      have hk2 : k = kv.1 ∨ k ∈ dKeys l := by
        simpa only [dKeys, List.map_cons, List.mem_cons] using hk
      rcases hk2 with hke | hkl
      · exfalso
        rw [hke] at hnot
        rw [hnot] at hds1
        cases hds1
      · exact hkl
    · have hcur2 : dHas cur kv.1 = false := by simpa using hcur
      rw [show _load_overlay_step ev false scF true false (Except.ok cur) kv
          = Except.error (.keyError kv.1) from by
        simp [_load_overlay_step, pybind_ok, hcur2]]
      rw [overlayFold_error]
      exact ⟨kv.1, rfl⟩

theorem overlayFold_no_strict_no_cast (ev : EvalFn) (scF : Bool)
    (emptyF : Bool) :
    ∀ (l : List (String × PyVal)) (cur : StrMap PyVal),
      l.foldl (_load_overlay_step ev false scF false emptyF) (Except.ok cur)
        = Except.ok (dUpdate cur l) := by
  intro l
  induction l with
  | nil => intro cur; rfl
  | cons kv l ih =>
    intro cur
    rw [List.foldl_cons]
    have hstep : _load_overlay_step ev false scF false emptyF (Except.ok cur) kv
        = Except.ok (dSet cur kv.1 kv.2) := by
      by_cases hcur : dHas cur kv.1 = true
      · simp [_load_overlay_step, pybind_ok, hcur]
      · simp [_load_overlay_step, pybind_ok, hcur]
    rw [hstep, ih]
    rfl

theorem dHas_append {α : Type} (a b : StrMap α) (k : String) :
    dHas (a ++ b) k = (dHas a k || dHas b k) := by
  induction a with
  | nil => simp [dHas]
  | cons p ps ih => simp [dHas, ih, Bool.or_assoc]

theorem overlayFold_empty_strict_accepts (ev : EvalFn) (cF scF : Bool) :
    ∀ (l : List (String × PyVal)) (cur : StrMap PyVal),
      (∀ k, k ∈ dKeys l → dHas cur k = false) →
      (dKeys l).Nodup →
      l.foldl (_load_overlay_step ev cF scF true true) (Except.ok cur)
        = Except.ok (cur ++ l) := by
  intro l
  induction l with
  | nil => intro cur _ _; simp
  | cons kv l ih =>
    intro cur hfresh hnd
    rw [List.foldl_cons]
    have hcur : dHas cur kv.1 = false := hfresh kv.1 (by simp [dKeys])
    have hstep : _load_overlay_step ev cF scF true true (Except.ok cur) kv
        = Except.ok (dSet cur kv.1 kv.2) := by
      simp [_load_overlay_step, pybind_ok, hcur]
    rw [hstep]
    rw [dSet_of_not_has cur kv.1 kv.2 hcur]
    simp only [dKeys, List.map_cons, List.nodup_cons] at hnd
    have hfresh2 : ∀ k, k ∈ dKeys l → dHas (cur ++ [(kv.1, kv.2)]) k = false := by
      intro k hk
      have hk1 : ¬ kv.1 = k := by
        intro hc
        apply hnd.1
        rw [hc]
        simpa [dKeys] using hk
      rw [dHas_append, hfresh k (by
        simp only [dKeys, List.map_cons, List.mem_cons]
        exact Or.inr (by simpa [dKeys] using hk))]
      simp [dHas, hk1]
    rw [ih (cur ++ [(kv.1, kv.2)]) hfresh2 (by simpa [dKeys] using hnd.2)]
    simp

/-- The strict-key rejection of the load path, stated on the per-section
merge: a section with a nonempty default mapping rejects (with
`KeyError`) any raw input containing a key absent from that default
mapping, casting disabled (a cast failure could otherwise surface
first). -/
theorem load_section_strict_rejects (ev : EvalFn) (scF : Bool)
    (dflt raw : ConfigData) (s : String) (ds : StrMap PyVal) (rs : RawDict) (k : String)
    (hd : dGet dflt s = Option.some ds) (hne : ds ≠ [])
    (hraw : dGet raw s = Option.some rs)
    (hk : k ∈ dKeys rs) (hnot : dHas ds k = false) :
    ∃ k2, _load_section ev false scF true dflt raw s
      = Except.error (.keyError k2) := by
  unfold _load_section
  rw [hraw]
  simp only [hd, Option.getD_some]
  have hempty : ds.isEmpty = false := by
    cases ds with
    | nil => exact absurd rfl hne
    | cons p ps => rfl
  rw [hempty]
  exact overlayFold_strict_nonempty_rejects ev scF ds rs ds (fun t => rfl) ⟨k, hk, hnot⟩

/-- The empty-default exemption of the load path: a section whose default
mapping is empty (or absent) accepts any raw input under `strict_key`,
retaining it verbatim. -/
theorem load_section_empty_default_accepts (ev : EvalFn) (cF scF : Bool)
    (dflt raw : ConfigData) (s : String) (rs : RawDict)
    (hd : dGet dflt s = Option.none ∨ dGet dflt s = Option.some [])
    (hraw : dGet raw s = Option.some rs) (hnd : (dKeys rs).Nodup) :
    _load_section ev cF scF true dflt raw s = Except.ok rs := by
  have hseed : (dGet dflt s).getD [] = ([] : StrMap PyVal) := by
    rcases hd with hd | hd <;> rw [hd] <;> rfl
  simp only [_load_section, hraw, hseed, List.isEmpty_nil]
  rw [overlayFold_empty_strict_accepts ev cF scF rs [] (fun k _ => rfl) hnd]
  rfl

/-- The lenient retention of the load path: with `strict_key` (and
casting) off, the per-section merge is defaults overlaid by the raw
input, so every raw key's value is retained verbatim. -/
theorem load_section_lenient_retains (ev : EvalFn) (scF : Bool)
    (dflt raw : ConfigData) (s : String) (rs : RawDict)
    (hraw : dGet raw s = Option.some rs) :
    _load_section ev false scF false dflt raw s
      = Except.ok (dUpdate ((dGet dflt s).getD []) rs) := by
  unfold _load_section
  rw [hraw]
  exact overlayFold_no_strict_no_cast ev scF _ rs _

/-- The strict rejection of direct item assignment: with `strict_key`
enabled, `__setitem__` raises `KeyError` for any key not already present
in the current section's data — the default mapping is not consulted. -/
theorem setItem_strict_rejects (c : Config) (k : String) (v : PyVal)
    (hsk : c._strict_key = true)
    (hhas : dHas c.data c.sectionName = true)
    (hk : dHas ((dGet c.data c.sectionName).getD []) (pyLower k) = false) :
    Config.setItem c k v = Except.error (.keyError (pyLower k)) := by
  unfold Config.setItem
  rw [if_pos hhas]
  simp only [pybind_ok, hk, Bool.false_eq_true, if_false, hsk, if_true]

/-- C2 amended.  With `strict_key` enabled the two write channels behave
differently.  During load, a section with a nonempty default mapping
rejects any undeclared key with `KeyError` (casting disabled), while a
section whose default mapping is empty or absent accepts arbitrary keys
verbatim.  By direct item assignment, any key not already present in the
current section's data raises `KeyError` regardless of the default
mapping — so even an empty-default section rejects new keys, which is the
counterexample.  With `strict_key` disabled, a load retains every raw
key's value verbatim. -/
theorem c2_amended :
    (∀ (ev : EvalFn) (scF : Bool) (dflt raw : ConfigData) (s : String)
        (ds : StrMap PyVal) (rs : RawDict) (k : String),
        dGet dflt s = Option.some ds → ds ≠ [] →
        dGet raw s = Option.some rs →
        k ∈ dKeys rs → dHas ds k = false →
        ∃ k2, _load_section ev false scF true dflt raw s
          = Except.error (.keyError k2))
    ∧ (∀ (ev : EvalFn) (cF scF : Bool) (dflt raw : ConfigData) (s : String)
        (rs : RawDict),
        (dGet dflt s = Option.none ∨ dGet dflt s = Option.some []) →
        dGet raw s = Option.some rs → (dKeys rs).Nodup →
        _load_section ev cF scF true dflt raw s = Except.ok rs)
    ∧ (∀ (c : Config) (k : String) (v : PyVal),
        c._strict_key = true →
        dHas c.data c.sectionName = true →
        dHas ((dGet c.data c.sectionName).getD []) (pyLower k) = false →
        Config.setItem c k v = Except.error (.keyError (pyLower k)))
    ∧ (∀ (ev : EvalFn) (scF : Bool) (dflt raw : ConfigData) (s : String)
        (rs : RawDict) (k : String) (v : PyVal),
        dGet raw s = Option.some rs → (dKeys rs).Nodup → (k, v) ∈ rs →
        ∃ ds2, _load_section ev false scF false dflt raw s = Except.ok ds2
          ∧ dGet ds2 k = Option.some v) := by
  refine ⟨?_, ?_, ?_, ?_⟩
  · intro ev scF dflt raw s ds rs k hd hne hraw hk hnot
    exact load_section_strict_rejects ev scF dflt raw s ds rs k hd hne hraw hk hnot
  · intro ev cF scF dflt raw s rs hd hraw hnd
    exact load_section_empty_default_accepts ev cF scF dflt raw s rs hd hraw hnd
  · intro c k v hsk hhas hk
    exact setItem_strict_rejects c k v hsk hhas hk
  · intro ev scF dflt raw s rs k v hraw hnd hmem
    refine ⟨dUpdate ((dGet dflt s).getD []) rs,
      load_section_lenient_retains ev scF dflt raw s rs hraw, ?_⟩
    exact dGet_dUpdate_mem _ rs k v hnd hmem

/-- C2 amended witness: the four parts applied at concrete inputs — a
nonempty default section rejects an undeclared key at load; an
empty-default section accepts one; strict assignment of a missing key
raises; and a lenient load keeps an undeclared key verbatim. -/
theorem c2_amended_witness :
    (∃ k2, _load_section evalStub false false true
        [("x", [("a", PyVal.int 1)])] [("x", [("zz", PyVal.str "9")])] "x"
        = Except.error (.keyError k2))
    ∧ _load_section evalStub false false true
        [(DEFAULTSECT, [])] [("x", [("zz", PyVal.str "9")])] "x"
        = Except.ok [("zz", PyVal.str "9")]
    ∧ Config.setItem
        ⟨false, false, true, Option.none, [(DEFAULTSECT, [])],
          [(DEFAULTSECT, []), ("x", [("a", PyVal.str "10")])], "x"⟩
        "c" (PyVal.int 20) = Except.error (.keyError (pyLower "c"))
    ∧ ∃ ds2, _load_section evalStub false false false
        [("x", [("a", PyVal.int 1)])] [("x", [("zz", PyVal.str "9")])] "x"
        = Except.ok ds2 ∧ dGet ds2 "zz" = Option.some (PyVal.str "9") := by
  refine ⟨?_, ?_, ?_, ?_⟩
  · exact c2_amended.1 evalStub false [("x", [("a", PyVal.int 1)])]
      [("x", [("zz", PyVal.str "9")])] "x" [("a", PyVal.int 1)]
      [("zz", PyVal.str "9")] "zz" rfl (by simp) rfl (by simp [dKeys]) rfl
  · exact c2_amended.2.1 evalStub false false [(DEFAULTSECT, [])]
      [("x", [("zz", PyVal.str "9")])] "x" [("zz", PyVal.str "9")]
      (Or.inl rfl) rfl (by simp [dKeys])
  · exact c2_amended.2.2.1
      ⟨false, false, true, Option.none, [(DEFAULTSECT, [])],
        [(DEFAULTSECT, []), ("x", [("a", PyVal.str "10")])], "x"⟩
      "c" (PyVal.int 20) rfl rfl rfl
  · exact c2_amended.2.2.2 evalStub false [("x", [("a", PyVal.int 1)])]
      [("x", [("zz", PyVal.str "9")])] "x" [("zz", PyVal.str "9")]
      "zz" (PyVal.str "9") rfl (by simp [dKeys]) (by simp)

/-- C10 witness: the theorem applied at a concrete construction (section
`"app"`, defaults declaring section `sec1` with `n = 11`). -/
theorem c10_empty_source_seeds_defaults_witness :
    ∃ c, Config.init evalStub [] (.mem []) "app" false
        (Option.some [("sec1", PyVal.dict [("n", PyVal.int 11)])]) false false false
        = Except.ok c
      ∧ dGet c.data DEFAULTSECT = Option.some ((dGet c.default DEFAULTSECT).getD []) := by
  obtain ⟨c, h1, h2, h3, h4⟩ := c10_empty_source_seeds_defaults evalStub [] "app" false
    (Option.some [("sec1", PyVal.dict [("n", PyVal.int 11)])]) false false false
  exact ⟨c, h1, h2⟩

/-- Dereferencing the written address after an in-heap inner-dict write
yields the written dict. -/
theorem heapGet_set_eq (h : Heap) (a : Nat) (d : StrMap PyVal) (ha : a < h.length) :
    heapGet (h.set a d) a = d := by
  induction h generalizing a with
  | nil => cases ha
  | cons x xs ih =>
    cases a with
    | zero => rfl
    | succ n => exact ih n (Nat.lt_of_succ_lt_succ ha)

/-- Dereferencing any other address is unaffected by an in-heap write. -/
theorem heapGet_set_ne (h : Heap) (a b : Nat) (d : StrMap PyVal) (hba : b ≠ a) :
    heapGet (h.set a d) b = heapGet h b := by
  induction h generalizing a b with
  | nil => rfl
  | cons x xs ih =>
    cases a with
    | zero =>
      cases b with
      | zero => exact absurd rfl hba
      | succ m => rfl
    | succ n =>
      cases b with
      | zero => rfl
      | succ m => exact ih n m (fun hc => hba (by rw [hc]))

/-- Lookup in a value-mapped association list. -/
theorem dGet_map {α β : Type} (f : α → β) (l : StrMap α) (k : String) :
    dGet (l.map (fun p => (p.1, f p.2))) k = (dGet l k).map f := by
  induction l with
  | nil => rfl
  | cons p ps ih =>
    simp only [List.map_cons, dGet]
    by_cases hpk : p.1 = k
    · simp [hpk]
    · simp [hpk, ih]

/-- C8 (amended).  `to_dict(allsection=True)` is `self.data.copy()`: the
returned outer table has the same content as the internal data, but the
copy is shallow — the inner per-section dicts are shared by reference.
An in-place write into the inner dict reached through the returned table
at section `s` changes the store's own view of `s` (and of any section
aliased to the same inner dict), while every section bound to a
different inner-dict address is unaffected. -/
theorem c8_amended (h : Heap) (st : HConfigData) (s k : String) (a : Nat) (v : PyVal)
    (hs : dGet (toDictAllRef st) s = Option.some a) (ha : a < h.length) :
    hview h (toDictAllRef st) = hview h st.sections
    ∧ dGet (hview (heapSetKV h a k v) st.sections) s
        = Option.some (dSet ((dGet (hview h st.sections) s).getD []) k v)
    ∧ (∀ s2 a2, dGet st.sections s2 = Option.some a2 → a2 ≠ a →
        dGet (hview (heapSetKV h a k v) st.sections) s2
          = dGet (hview h st.sections) s2) := by
  have hs2 : dGet st.sections s = Option.some a := hs
  refine ⟨rfl, ?_, ?_⟩
  · simp only [hview, heapSetKV, dGet_map, hs2, Option.map_some', Option.getD_some]
    rw [heapGet_set_eq h a _ ha]
  · intro s2 a2 hsa2 hne
    simp only [hview, heapSetKV, dGet_map, hsa2, Option.map_some']
    rw [heapGet_set_ne h a a2 _ hne]

/-- C8 witness: the amended theorem at a concrete two-section store,
writing `x = "9"` through the inner dict the returned table exposes for
section `a`. -/
theorem c8_amended_witness :
    hview c8WHeap (toDictAllRef c8WSt) = hview c8WHeap c8WSt.sections
    ∧ dGet (hview (heapSetKV c8WHeap 0 "x" (PyVal.str "9")) c8WSt.sections) "a"
        = Option.some (dSet ((dGet (hview c8WHeap c8WSt.sections) "a").getD []) "x"
            (PyVal.str "9"))
    ∧ (∀ s2 a2, dGet c8WSt.sections s2 = Option.some a2 → a2 ≠ 0 →
        dGet (hview (heapSetKV c8WHeap 0 "x" (PyVal.str "9")) c8WSt.sections) s2
          = dGet (hview c8WHeap c8WSt.sections) s2) :=
  c8_amended c8WHeap c8WSt "a" "x" 0 (PyVal.str "9") rfl (by decide)

/-- In a dict with distinct keys, membership of a pair determines the
lookup. -/
theorem dGet_of_mem_nodup {α : Type} (d : StrMap α) (k : String) (v : α)
    (hnd : (dKeys d).Nodup) (h : (k, v) ∈ d) : dGet d k = Option.some v := by
  induction d with
  | nil => simp at h
  | cons p ps ih =>
    simp only [dKeys, List.map_cons, List.nodup_cons] at hnd
    rcases List.mem_cons.mp h with h1 | h1
    · rw [← h1]
      simp [dGet]
    · have hpk : ¬ p.1 = k := by
        intro hc
        apply hnd.1
        rw [hc]
        exact List.mem_map_of_mem Prod.fst h1
      simp only [dGet, hpk, if_false]
      exact ih (by simpa [dKeys] using hnd.2) h1

/-- Pointwise-equal functions map lists equally. -/
theorem mapCongrMem {α β : Type} (f g : α → β) :
    ∀ (l : List α), (∀ a ∈ l, f a = g a) → l.map f = l.map g := by
  intro l
  induction l with
  | nil => intro _; rfl
  | cons a l ih =>
    intro h
    simp only [List.map_cons]
    rw [h a (List.mem_cons_self a l), ih (fun b hb => h b (List.mem_cons_of_mem a hb))]

/-- Writing pairwise-distinct keys that are all fresh for the accumulator
appends them in order (generalized accumulator for `iniSection`). -/
theorem iniSection_go :
    ∀ (d : StrMap PyVal) (acc : FileData),
      (∀ kv ∈ d, dHas acc (pyLower kv.1) = false) →
      (d.map (fun kv => pyLower kv.1)).Nodup →
      d.foldl (fun acc kv => dSet acc (pyLower kv.1) (pyStr kv.2)) acc
        = acc ++ d.map (fun kv => (pyLower kv.1, pyStr kv.2)) := by
  intro d
  induction d with
  | nil => intro acc _ _; simp
  | cons kv l ih =>
    intro acc hfresh hnd
    simp only [List.map_cons, List.nodup_cons] at hnd
    have hfresh2 : ∀ kv2 ∈ l,
        dHas (acc ++ [(pyLower kv.1, pyStr kv.2)]) (pyLower kv2.1) = false := by
      intro kv2 h2
      have hne : ¬ pyLower kv.1 = pyLower kv2.1 := by
        intro hc
        apply hnd.1
        rw [hc]
        exact List.mem_map_of_mem _ h2
      rw [dHas_append, hfresh kv2 (List.mem_cons_of_mem kv h2)]
      simp [dHas, hne]
    rw [List.foldl_cons, dSet_of_not_has acc _ _ (hfresh kv (List.mem_cons_self kv l)),
      ih _ hfresh2 hnd.2]
    simp

/-- `iniSection` on distinct (lowered) keys is the evident map. -/
theorem iniSection_eq (d : StrMap PyVal)
    (hnd : (d.map (fun kv => pyLower kv.1)).Nodup) :
    iniSection d = d.map (fun kv => (pyLower kv.1, pyStr kv.2)) := by
  have h := iniSection_go d [] (fun kv _ => rfl) hnd
  simpa [iniSection] using h

/-- Generalized accumulator for `lowStrSection`. -/
theorem lowStrSection_go :
    ∀ (d : FileData) (acc : StrMap PyVal),
      (∀ kv ∈ d, dHas acc (pyLower kv.1) = false) →
      (d.map (fun kv => pyLower kv.1)).Nodup →
      d.foldl (fun acc p => dSet acc (pyLower p.1) (PyVal.str p.2)) acc
        = acc ++ d.map (fun kv => (pyLower kv.1, PyVal.str kv.2)) := by
  intro d
  induction d with
  | nil => intro acc _ _; simp
  | cons kv l ih =>
    intro acc hfresh hnd
    simp only [List.map_cons, List.nodup_cons] at hnd
    have hfresh2 : ∀ kv2 ∈ l,
        dHas (acc ++ [(pyLower kv.1, PyVal.str kv.2)]) (pyLower kv2.1) = false := by
      intro kv2 h2
      have hne : ¬ pyLower kv.1 = pyLower kv2.1 := by
        intro hc
        apply hnd.1
        rw [hc]
        exact List.mem_map_of_mem _ h2
      rw [dHas_append, hfresh kv2 (List.mem_cons_of_mem kv h2)]
      simp [dHas, hne]
    rw [List.foldl_cons, dSet_of_not_has acc _ _ (hfresh kv (List.mem_cons_self kv l)),
      ih _ hfresh2 hnd.2]
    simp

/-- `lowStrSection` on distinct (lowered) keys is the evident map. -/
theorem lowStrSection_eq (d : FileData)
    (hnd : (d.map (fun kv => pyLower kv.1)).Nodup) :
    lowStrSection d = d.map (fun kv => (pyLower kv.1, PyVal.str kv.2)) := by
  have h := lowStrSection_go d [] (fun kv _ => rfl) hnd
  simpa [lowStrSection] using h

/-- `dict.update` with entries all fresh for the base appends them. -/
theorem dUpdate_fresh_append {α : Type} :
    ∀ (e d : StrMap α),
      (∀ kv ∈ e, dHas d kv.1 = false) → (dKeys e).Nodup →
      dUpdate d e = d ++ e := by
  intro e
  induction e with
  | nil => intro d _ _; simp [dUpdate]
  | cons kv l ih =>
    intro d hfresh hnd
    simp only [dKeys, List.map_cons, List.nodup_cons] at hnd
    have hstep : dUpdate d (kv :: l) = dUpdate (dSet d kv.1 kv.2) l := by
      simp [dUpdate, List.foldl_cons]
    rw [hstep, dSet_of_not_has d kv.1 kv.2 (hfresh kv (List.mem_cons_self kv l))]
    have hfresh2 : ∀ kv2 ∈ l, dHas (d ++ [(kv.1, kv.2)]) kv2.1 = false := by
      intro kv2 h2
      have hne : ¬ kv.1 = kv2.1 := by
        intro hc
        apply hnd.1
        rw [hc]
        exact List.mem_map_of_mem _ h2
      rw [dHas_append, hfresh kv2 (List.mem_cons_of_mem kv h2)]
      simp [dHas, hne]
    rw [ih _ hfresh2 (by simpa [dKeys] using hnd.2)]
    simp

/-- Updating the empty dict with distinct keys is the identity. -/
theorem dUpdate_nil_eq {α : Type} (e : StrMap α) (hnd : (dKeys e).Nodup) :
    dUpdate [] e = e := by
  have h := dUpdate_fresh_append e [] (fun kv _ => rfl) hnd
  simpa using h

/-- Writing a stored section back through the parser and reading it again
is the identity on well-formed textual sections: keys already lower-case
and distinct, every value a string. -/
theorem lowStr_iniSection_id (ds : StrMap PyVal)
    (hnd : (dKeys ds).Nodup)
    (hwf : ∀ kv ∈ ds, pyLower kv.1 = kv.1 ∧ ∃ t, kv.2 = PyVal.str t) :
    lowStrSection (iniSection ds) = ds := by
  have hlowmap : ds.map (fun kv => pyLower kv.1) = ds.map Prod.fst :=
    mapCongrMem _ _ ds (fun kv hkv => (hwf kv hkv).1)
  have hnd1 : (ds.map (fun kv => pyLower kv.1)).Nodup := by
    rw [hlowmap]
    exact hnd
  rw [iniSection_eq ds hnd1]
  have hnd2 : ((ds.map (fun kv => (pyLower kv.1, pyStr kv.2))).map
      (fun kv => pyLower kv.1)).Nodup := by
    rw [List.map_map]
    have hco : ds.map ((fun (kv : String × String) => pyLower kv.1)
        ∘ (fun kv => (pyLower kv.1, pyStr kv.2))) = ds.map (fun kv => pyLower kv.1) := by
      refine mapCongrMem _ _ ds (fun kv hkv => ?_)
      show pyLower (pyLower kv.1) = pyLower kv.1
      rw [(hwf kv hkv).1]
      exact (hwf kv hkv).1
    rw [hco]
    exact hnd1
  rw [lowStrSection_eq _ hnd2, List.map_map]
  have hid : ds.map ((fun (kv : String × String) => (pyLower kv.1, PyVal.str kv.2))
      ∘ (fun kv => (pyLower kv.1, pyStr kv.2))) = ds.map (fun kv => kv) := by
    refine mapCongrMem _ _ ds (fun kv hkv => ?_)
    show (pyLower (pyLower kv.1), PyVal.str (pyStr kv.2)) = kv
    obtain ⟨t, ht⟩ := (hwf kv hkv).2
    rw [(hwf kv hkv).1, (hwf kv hkv).1, ht,
      show PyVal.str (pyStr (PyVal.str t)) = PyVal.str t from rfl, ← ht]
  rw [hid]
  simp

/-- Filtering on keys commutes with a key-preserving map of values. -/
theorem filter_key_map {α β : Type} (g : α → β) (pred : String → Bool) :
    ∀ (l : StrMap α),
      (l.map (fun p => (p.1, g p.2))).filter (fun p => pred p.1)
        = (l.filter (fun p => pred p.1)).map (fun p => (p.1, g p.2)) := by
  intro l
  induction l with
  | nil => rfl
  | cons p ps ih =>
    by_cases hp : pred p.1 = true
    · simp [List.filter_cons, hp, ih]
    · simp [List.filter_cons, hp, ih]

/-- Looking up a key the filter keeps sees through the filter. -/
theorem dGet_filter_key {α : Type} (pred : String → Bool) (l : StrMap α) (k : String)
    (hk : pred k = true) :
    dGet (l.filter (fun p => pred p.1)) k = dGet l k := by
  induction l with
  | nil => rfl
  | cons p ps ih =>
    by_cases hp : p.1 = k
    · have hpp : pred p.1 = true := by rw [hp]; exact hk
      simp [List.filter_cons, hpp, dGet, hp, hk]
    · by_cases hpr : pred p.1 = true
      · simp [List.filter_cons, hpr, dGet, hp, ih]
      · simp [List.filter_cons, hpr, dGet, hp, ih]

/-- A key-preserving map of values preserves the key list. -/
theorem dKeys_key_map {α β : Type} (g : α → β) (l : StrMap α) :
    dKeys (l.map (fun p => (p.1, g p.2))) = dKeys l := by
  induction l with
  | nil => rfl
  | cons p ps ih => simp [dKeys, List.map_cons] at ih ⊢

/-- `d[k] = v` preserves distinctness of the key list. -/
theorem dKeys_dSet_nodup {α : Type} (d : StrMap α) (k : String) (v : α)
    (hnd : (dKeys d).Nodup) : (dKeys (dSet d k v)).Nodup := by
  rw [dKeys_dSet]
  by_cases hm : k ∈ dKeys d
  · simp [hm, hnd]
  · simp [hm, List.nodup_append, hnd]

/-- `dict.update` preserves distinctness of the base's key list. -/
theorem dKeys_dUpdate_nodup {α : Type} (d e : StrMap α)
    (hnd : (dKeys d).Nodup) : (dKeys (dUpdate d e)).Nodup := by
  induction e generalizing d with
  | nil => exact hnd
  | cons p ps ih =>
    have hstep : dUpdate d (p :: ps) = dUpdate (dSet d p.1 p.2) ps := by
      simp [dUpdate, List.foldl_cons]
    rw [hstep]
    exact ih (dSet d p.1 p.2) (dKeys_dSet_nodup d p.1 p.2 hnd)

/-- Keys of `dict.update` come from one of the operands. -/
theorem mem_dKeys_dUpdate {α : Type} (d e : StrMap α) (k : String)
    (h : k ∈ dKeys (dUpdate d e)) : k ∈ dKeys d ∨ k ∈ dKeys e := by
  induction e generalizing d with
  | nil => exact Or.inl h
  | cons p ps ih =>
    have hstep : dUpdate d (p :: ps) = dUpdate (dSet d p.1 p.2) ps := by
      simp [dUpdate, List.foldl_cons]
    rw [hstep] at h
    rcases ih (dSet d p.1 p.2) h with h1 | h1
    · rw [dKeys_dSet] at h1
      by_cases hm : p.1 ∈ dKeys d
      · rw [if_pos hm] at h1
        exact Or.inl h1
      · rw [if_neg hm] at h1
        rcases List.mem_append.mp h1 with h2 | h2
        · exact Or.inl h2
        · simp only [List.mem_singleton] at h2
          exact Or.inr (by simp [dKeys, h2])
    · refine Or.inr ?_
      simp only [dKeys, List.map_cons, List.mem_cons]
      exact Or.inr (by simpa [dKeys] using h1)

/-- Sufficient conditions for Python dict equality. -/
theorem strDictEq_true_intro {α : Type} (f : α → α → Bool) (a b : StrMap α)
    (h1 : ∀ p ∈ a, ∃ w, dGet b p.1 = Option.some w ∧ f p.2 w = true)
    (h2 : ∀ p ∈ b, dHas a p.1 = true) :
    strDictEq f a b = true := by
  unfold strDictEq
  rw [Bool.and_eq_true]
  constructor
  · rw [List.all_eq_true]
    intro p hp
    obtain ⟨w, hw, hfw⟩ := h1 p hp
    rw [hw]
    exact hfw
  · rw [List.all_eq_true]
    intro p hp
    exact h2 p hp

/-- Python dict equality is reflexive on textual dicts with distinct
keys. -/
theorem strDictEq_refl_textual (ds : StrMap PyVal)
    (hnd : (dKeys ds).Nodup)
    (htxt : ∀ kv ∈ ds, ∃ t, kv.2 = PyVal.str t) :
    strDictEq pyValEq ds ds = true := by
  refine strDictEq_true_intro pyValEq ds ds ?_ ?_
  · intro p hp
    refine ⟨p.2, dGet_of_mem_nodup ds p.1 p.2 hnd (by simpa using hp), ?_⟩
    obtain ⟨t, ht⟩ := htxt p hp
    rw [ht]
    simp [pyValEq]
  · intro p hp
    rw [dHas_eq_isSome_dGet, dGet_of_mem_nodup ds p.1 p.2 hnd (by simpa using hp)]
    rfl

/-- A textual section equals (as a Python dict) the result of laying it
over any dict whose keys it covers. -/
theorem strDictEq_update_covered (dd ds : StrMap PyVal)
    (hnd : (dKeys ds).Nodup)
    (htxt : ∀ kv ∈ ds, ∃ t, kv.2 = PyVal.str t)
    (hincl : ∀ k, k ∈ dKeys dd → dHas ds k = true) :
    strDictEq pyValEq ds (dUpdate dd ds) = true := by
  refine strDictEq_true_intro pyValEq ds (dUpdate dd ds) ?_ ?_
  · intro p hp
    have hg : dGet ds p.1 = Option.some p.2 :=
      dGet_of_mem_nodup ds p.1 p.2 hnd (by simpa using hp)
    refine ⟨p.2, ?_, ?_⟩
    · rw [dGet_dUpdate dd ds p.1 hnd, hg]
    · obtain ⟨t, ht⟩ := htxt p hp
      rw [ht]
      simp [pyValEq]
  · intro p hp
    have hk : p.1 ∈ dKeys (dUpdate dd ds) := List.mem_map_of_mem Prod.fst hp
    rcases mem_dKeys_dUpdate dd ds p.1 hk with h1 | h1
    · exact hincl p.1 h1
    · rw [dHas_eq_isSome_dGet]
      have := isSome_dGet_of_mem_dKeys ds p.1 h1
      exact this

/-- `_load` from an existing file: read the file back through the parser
and run the merge loop. -/
theorem load_from_file (ev : EvalFn) (cF scF skF nf : Bool) (dflt : ConfigData)
    (p : String) (fs : FS) (fd : IniFile) (hfd : dGet fs p = Option.some fd) :
    _load ev cF scF skF dflt (Option.some p) Option.none Option.none nf fs
      = (_load_merge ev cF scF skF dflt (parserReadToDict fd)
          (sectionsToLoad dflt (parserReadToDict fd) Option.none)).bind
          (fun dr => Except.ok (dr, Option.some p)) := by
  simp only [_load, _load_resolve, hfd, bind, Except.bind]

/-- `save` to a destination where no file exists writes the scoped data
unconditionally (the mode is never consulted on this path). -/
theorem config_save_fresh (ev : EvalFn) (now pa mode : String) (c : Config) (fs : FS)
    (p : String) (keep : Bool) (hfresh : dGet fs p = Option.none) :
    Config.save ev now pa c fs (Option.some p) Option.none mode keep
      = Except.ok (c, dSet fs p (parserWrite c.data)) := by
  simp only [Config.save, hfresh, pybind_ok]

/-- Filtering twice with the same predicate filters once. -/
theorem filter_idem {α : Type} (p : α → Bool) (l : List α) :
    (l.filter p).filter p = l.filter p := by
  induction l with
  | nil => rfl
  | cons a l ih =>
    by_cases h : p a = true
    · simp [List.filter_cons, h, ih]
    · simp [List.filter_cons, h, ih]

/-- Reading back a just-written store through the parser: the reserved
default section survives unchanged, and every other section is the
default section's mapping overlaid with its own (the fallback
inheritance of the durable format), provided the store is well formed —
distinct sections, distinct lower-case keys, textual values. -/
theorem parser_roundtrip_raw (cd : ConfigData) (dd : StrMap PyVal)
    (hdef : dGet cd DEFAULTSECT = Option.some dd)
    (hwf : ∀ sd ∈ cd, (dKeys sd.2).Nodup
        ∧ ∀ kv ∈ sd.2, pyLower kv.1 = kv.1 ∧ ∃ t, kv.2 = PyVal.str t) :
    parserReadToDict (parserWrite cd)
      = (DEFAULTSECT, dd)
        :: (cd.filter (fun q => q.1 != DEFAULTSECT)).map
            (fun q => (q.1, dUpdate dd q.2)) := by
  have hmemdd : (DEFAULTSECT, dd) ∈ cd := mem_of_dGet cd DEFAULTSECT dd hdef
  have hddwf := hwf (DEFAULTSECT, dd) hmemdd
  have hid_dd : lowStrSection (iniSection dd) = dd :=
    lowStr_iniSection_id dd hddwf.1 hddwf.2
  have hpw : parserWrite cd
      = (DEFAULTSECT, iniSection dd)
        :: (cd.filter (fun p => p.1 != DEFAULTSECT)).map
            (fun p => (p.1, iniSection p.2)) := by
    simp only [parserWrite, hdef, Option.getD_some]
  rw [hpw]
  have hget : dGet ((DEFAULTSECT, iniSection dd)
      :: (cd.filter (fun p => p.1 != DEFAULTSECT)).map
          (fun p => (p.1, iniSection p.2))) DEFAULTSECT
      = Option.some (iniSection dd) := by
    simp [dGet]
  have hfil : (((DEFAULTSECT, iniSection dd)
      :: (cd.filter (fun p => p.1 != DEFAULTSECT)).map
          (fun p => (p.1, iniSection p.2))).filter (fun p => p.1 != DEFAULTSECT))
      = (cd.filter (fun p => p.1 != DEFAULTSECT)).map
          (fun p => (p.1, iniSection p.2)) := by
    rw [List.filter_cons]
    rw [show (((DEFAULTSECT, iniSection dd) : String × FileData).1
        != DEFAULTSECT) = false from by simp]
    simp only [Bool.false_eq_true, if_false]
    rw [filter_key_map iniSection (fun s => s != DEFAULTSECT)
      (List.filter (fun p => p.1 != DEFAULTSECT) cd), filter_idem]
  simp only [parserReadToDict, hget, Option.getD_some, hid_dd, hfil]
  rw [List.map_map]
  refine congrArg (List.cons (DEFAULTSECT, dd)) ?_
  refine mapCongrMem _ _ _ (fun q hq => ?_)
  have hqwf := hwf q (List.mem_of_mem_filter hq)
  show (q.1, dUpdate dd (lowStrSection (iniSection q.2))) = (q.1, dUpdate dd q.2)
  rw [lowStr_iniSection_id q.2 hqwf.1 hqwf.2]

/-- The section worklist of a reload whose raw input leads with the
reserved default section: exactly the raw sections, in order. -/
theorem sectionsToLoad_head_default (x : StrMap PyVal) (rest : ConfigData) :
    sectionsToLoad [(DEFAULTSECT, ([] : StrMap PyVal))]
        ((DEFAULTSECT, x) :: rest) Option.none
      = dKeys ((DEFAULTSECT, x) :: rest) := by
  have hD : DEFAULTSECT ∈ dKeys ((DEFAULTSECT, x) :: rest) := by simp [dKeys]
  simp [sectionsToLoad, hD, dKeys]

/-- C3 (amended).  Saving a well-formed textual store in `write` mode to
a destination where no file exists and reloading from that destination
yields an equal store under `__eq__`, provided every section already
contains every key of the reserved default section — without that
proviso the durable format's fallback inheritance inserts the missing
default keys on read-back and the reload is not equal.  Well-formedness:
section names distinct, keys of every section distinct and lower-case,
every value a string, the reserved default section present. -/
theorem c3_amended (ev : EvalFn) (now pa : String) (c : Config) (fs : FS)
    (p : String) (dd : StrMap PyVal)
    (hfresh : dGet fs p = Option.none)
    (hdef : dGet c.data DEFAULTSECT = Option.some dd)
    (hsecnd : (dKeys c.data).Nodup)
    (hwf : ∀ sd ∈ c.data, (dKeys sd.2).Nodup
        ∧ ∀ kv ∈ sd.2, pyLower kv.1 = kv.1 ∧ ∃ t, kv.2 = PyVal.str t)
    (hincl : ∀ sd ∈ c.data, ∀ k, k ∈ dKeys dd → dHas sd.2 k = true) :
    ∃ fs2 c2,
      Config.save ev now pa c fs (Option.some p) Option.none "write" true
        = Except.ok (c, fs2)
      ∧ Config.init ev fs2 (.file p) DEFAULTSECT false Option.none false false false
        = Except.ok c2
      ∧ Config.eqConfig c c2 = true := by
  have hmemdd : (DEFAULTSECT, dd) ∈ c.data := mem_of_dGet c.data DEFAULTSECT dd hdef
  have hddwf := hwf (DEFAULTSECT, dd) hmemdd
  have hraw := parser_roundtrip_raw c.data dd hdef hwf
  have hsave := config_save_fresh ev now pa "write" c fs p true hfresh
  have hfs2 : dGet (dSet fs p (parserWrite c.data)) p
      = Option.some (parserWrite c.data) := dGet_dSet_self fs p _
  have hload := load_from_file ev false false false false [(DEFAULTSECT, [])] p
    (dSet fs p (parserWrite c.data)) (parserWrite c.data) hfs2
  rw [hraw, sectionsToLoad_head_default dd
    ((c.data.filter (fun q => q.1 != DEFAULTSECT)).map
      (fun q => (q.1, dUpdate dd q.2)))] at hload
  have hf : ∀ s ∈ dKeys ((DEFAULTSECT, dd)
      :: (c.data.filter (fun q => q.1 != DEFAULTSECT)).map
          (fun q => (q.1, dUpdate dd q.2))),
      _load_section ev false false false [(DEFAULTSECT, [])]
        ((DEFAULTSECT, dd) :: (c.data.filter (fun q => q.1 != DEFAULTSECT)).map
          (fun q => (q.1, dUpdate dd q.2))) s
      = Except.ok (dUpdate ((dGet [(DEFAULTSECT, ([] : StrMap PyVal))] s).getD [])
          ((dGet ((DEFAULTSECT, dd) :: (c.data.filter
              (fun q => q.1 != DEFAULTSECT)).map
            (fun q => (q.1, dUpdate dd q.2))) s).getD [])) := by
    intro s hs
    have hsome := isSome_dGet_of_mem_dKeys _ s hs
    cases hrs : dGet ((DEFAULTSECT, dd) :: (c.data.filter
        (fun q => q.1 != DEFAULTSECT)).map (fun q => (q.1, dUpdate dd q.2))) s with
    | none => rw [hrs] at hsome; simp at hsome
    | some rs =>
      rw [load_section_lenient_retains ev false [(DEFAULTSECT, [])] _ s rs hrs]
      rfl
  have hmerge := loadMerge_eq_pure ev false false false [(DEFAULTSECT, [])]
    ((DEFAULTSECT, dd) :: (c.data.filter (fun q => q.1 != DEFAULTSECT)).map
      (fun q => (q.1, dUpdate dd q.2)))
    (dKeys ((DEFAULTSECT, dd) :: (c.data.filter (fun q => q.1 != DEFAULTSECT)).map
      (fun q => (q.1, dUpdate dd q.2))))
    (fun s => dUpdate ((dGet [(DEFAULTSECT, ([] : StrMap PyVal))] s).getD [])
      ((dGet ((DEFAULTSECT, dd) :: (c.data.filter (fun q => q.1 != DEFAULTSECT)).map
        (fun q => (q.1, dUpdate dd q.2))) s).getD [])) hf
  rw [hmerge] at hload
  simp only [Except.bind] at hload
  have hd0 : _init_configdict (defaultRawOf Option.none DEFAULTSECT)
      (Option.some DEFAULTSECT) = Except.ok [(DEFAULTSECT, [])] := rfl
  have hinit := config_init_file_eq ev (dSet fs p (parserWrite c.data)) p DEFAULTSECT
    false Option.none false false false [(DEFAULTSECT, [])] hd0
  rw [hload] at hinit
  simp only [Except.bind] at hinit
  refine ⟨dSet fs p (parserWrite c.data), _, hsave, hinit, ?_⟩
  simp only [Config.eqConfig, Config.to_dict_all, configEq]
  refine strDictEq_true_intro _ _ _ ?_ ?_
  · intro sd hsd
    have hskey : dGet c.data sd.1 = Option.some sd.2 :=
      dGet_of_mem_nodup c.data sd.1 sd.2 hsecnd hsd
    by_cases hD : sd.1 = DEFAULTSECT
    · have hsddd : sd.2 = dd := by
        rw [hD] at hskey
        exact Option.some.inj (hskey.symm.trans hdef)
      refine ⟨dd, ?_, ?_⟩
      · rw [hD, foldl_dSet_dGet,
          if_pos (show DEFAULTSECT ∈ dKeys ((DEFAULTSECT, dd)
            :: (c.data.filter (fun q => q.1 != DEFAULTSECT)).map
              (fun q => (q.1, dUpdate dd q.2))) from by simp [dKeys])]
        show Option.some (dUpdate
          ((dGet [(DEFAULTSECT, ([] : StrMap PyVal))] DEFAULTSECT).getD [])
          ((dGet ((DEFAULTSECT, dd) :: (c.data.filter
              (fun q => q.1 != DEFAULTSECT)).map
            (fun q => (q.1, dUpdate dd q.2))) DEFAULTSECT).getD [])) = Option.some dd
        rw [show dGet [(DEFAULTSECT, ([] : StrMap PyVal))] DEFAULTSECT
            = Option.some [] from by simp [dGet],
          show dGet ((DEFAULTSECT, dd) :: (c.data.filter
              (fun q => q.1 != DEFAULTSECT)).map
            (fun q => (q.1, dUpdate dd q.2))) DEFAULTSECT
            = Option.some dd from by simp [dGet]]
        show Option.some (dUpdate [] dd) = Option.some dd
        rw [dUpdate_nil_eq dd hddwf.1]
      · rw [hsddd]
        exact strDictEq_refl_textual dd hddwf.1 (fun kv hkv => (hddwf.2 kv hkv).2)
    · have hne : ¬ DEFAULTSECT = sd.1 := fun hc => hD hc.symm
      have hpred : ((fun s => s != DEFAULTSECT) sd.1) = true := by simp [hD]
      have hfilget : dGet (c.data.filter (fun q => q.1 != DEFAULTSECT)) sd.1
          = Option.some sd.2 := by
        rw [dGet_filter_key (fun s => s != DEFAULTSECT) c.data sd.1 hpred]
        exact hskey
      have hTget : dGet ((c.data.filter (fun q => q.1 != DEFAULTSECT)).map
          (fun q => (q.1, dUpdate dd q.2))) sd.1
          = Option.some (dUpdate dd sd.2) := by
        rw [dGet_map (dUpdate dd) (c.data.filter (fun q => q.1 != DEFAULTSECT)) sd.1,
          hfilget]
        rfl
      have hRget : dGet ((DEFAULTSECT, dd) :: (c.data.filter
          (fun q => q.1 != DEFAULTSECT)).map (fun q => (q.1, dUpdate dd q.2))) sd.1
          = Option.some (dUpdate dd sd.2) := by
        simp only [dGet, hne, if_false]
        exact hTget
      have hmem : sd.1 ∈ dKeys ((DEFAULTSECT, dd) :: (c.data.filter
          (fun q => q.1 != DEFAULTSECT)).map (fun q => (q.1, dUpdate dd q.2))) :=
        mem_dKeys_of_dGet _ sd.1 _ hRget
      refine ⟨dUpdate dd sd.2, ?_, ?_⟩
      · rw [foldl_dSet_dGet, if_pos hmem]
        show Option.some (dUpdate
          ((dGet [(DEFAULTSECT, ([] : StrMap PyVal))] sd.1).getD [])
          ((dGet ((DEFAULTSECT, dd) :: (c.data.filter
              (fun q => q.1 != DEFAULTSECT)).map
            (fun q => (q.1, dUpdate dd q.2))) sd.1).getD []))
          = Option.some (dUpdate dd sd.2)
        rw [hRget, show dGet [(DEFAULTSECT, ([] : StrMap PyVal))] sd.1
            = Option.none from by simp [dGet, hne]]
        show Option.some (dUpdate [] (dUpdate dd sd.2))
          = Option.some (dUpdate dd sd.2)
        rw [dUpdate_nil_eq _ (dKeys_dUpdate_nodup dd sd.2 hddwf.1)]
      · exact strDictEq_update_covered dd sd.2 (hwf sd hsd).1
          (fun kv hkv => ((hwf sd hsd).2 kv hkv).2) (hincl sd hsd)
  · intro q hq
    have hqk := isSome_dGet_of_mem_dKeys _ q.1 (List.mem_map_of_mem Prod.fst hq)
    rw [foldl_dSet_dGet] at hqk
    by_cases hm : q.1 ∈ dKeys ((DEFAULTSECT, dd) :: (c.data.filter
        (fun q => q.1 != DEFAULTSECT)).map (fun q => (q.1, dUpdate dd q.2)))
    · simp only [dKeys, List.map_cons, List.mem_cons] at hm
      rcases hm with hm | hm
      · rw [show q.1 = DEFAULTSECT from hm, dHas_eq_isSome_dGet, hdef]
        rfl
      · have hmT : q.1 ∈ dKeys ((c.data.filter (fun q => q.1 != DEFAULTSECT)).map
            (fun q => (q.1, dUpdate dd q.2))) := hm
        rw [dKeys_key_map] at hmT
        obtain ⟨e, he, hfst⟩ := List.mem_map.mp hmT
        have hecd : e ∈ c.data := List.mem_of_mem_filter he
        rw [← hfst, dHas_eq_isSome_dGet]
        exact isSome_dGet_of_mem_dKeys c.data e.1 (List.mem_map_of_mem Prod.fst hecd)
    · rw [if_neg hm] at hqk
      simp [dGet] at hqk

/-- C3 witness: the amended round-trip at a concrete two-section textual
store saved to a fresh destination. -/
theorem c3_amended_witness :
    dGet ([] : FS) "config.ini" = Option.none
    ∧ dGet c3WConfig.data DEFAULTSECT = Option.some [("x", PyVal.str "1")]
    ∧ (dKeys c3WConfig.data).Nodup
    ∧ ∃ fs2 c2,
        Config.save evalStub "20260101" "" c3WConfig [] (Option.some "config.ini")
            Option.none "write" true = Except.ok (c3WConfig, fs2)
        ∧ Config.init evalStub fs2 (.file "config.ini") DEFAULTSECT false Option.none
            false false false = Except.ok c2
        ∧ Config.eqConfig c3WConfig c2 = true := by
  refine ⟨rfl, rfl, by decide, ?_⟩
  refine c3_amended evalStub "20260101" "" c3WConfig [] "config.ini"
    [("x", PyVal.str "1")] rfl rfl (by decide) ?_ ?_
  · intro sd hsd
    simp only [c3WConfig, List.mem_cons, List.not_mem_nil, or_false] at hsd
    rcases hsd with h | h
    · subst h
      refine ⟨by decide, ?_⟩
      intro kv hkv
      simp only [List.mem_cons, List.not_mem_nil, or_false] at hkv
      subst hkv
      exact ⟨by decide, "1", rfl⟩
    · subst h
      refine ⟨by decide, ?_⟩
      intro kv hkv
      simp only [List.mem_cons, List.not_mem_nil, or_false] at hkv
      rcases hkv with h2 | h2
      · subst h2
        exact ⟨by decide, "2", rfl⟩
      · subst h2
        exact ⟨by decide, "3", rfl⟩
  · intro sd hsd
    simp only [c3WConfig, List.mem_cons, List.not_mem_nil, or_false] at hsd
    intro k hk
    simp only [dKeys, List.map_cons, List.map_nil, List.mem_cons, List.not_mem_nil,
      or_false] at hk
    subst hk
    rcases hsd with h | h
    · subst h
      decide
    · subst h
      decide

/-- Looking up any section in the trivial default table yields the empty
mapping. -/
theorem dGet_trivial_default (s : String) :
    (dGet [(DEFAULTSECT, ([] : StrMap PyVal))] s).getD [] = ([] : StrMap PyVal) := by
  by_cases h : DEFAULTSECT = s
  · simp [dGet, h]
  · simp [dGet, h]

/-- Sections read back through the parser have distinct keys. -/
theorem lowStrSection_keys_nodup (d : FileData) :
    (dKeys (lowStrSection d)).Nodup := by
  have go : ∀ (l : FileData) (acc : StrMap PyVal), (dKeys acc).Nodup →
      (dKeys (l.foldl (fun acc p => dSet acc (pyLower p.1) (PyVal.str p.2)) acc)).Nodup := by
    intro l
    induction l with
    | nil => intro acc h; exact h
    | cons p ps ih =>
      intro acc h
      rw [List.foldl_cons]
      exact ih _ (dKeys_dSet_nodup _ _ _ h)
  exact go d [] (by simp [dKeys])

/-- Every section of a parser read-back has distinct keys. -/
theorem parserReadToDict_val_nodup (fd : IniFile) (s : String) (rs : StrMap PyVal)
    (h : dGet (parserReadToDict fd) s = Option.some rs) : (dKeys rs).Nodup := by
  simp only [parserReadToDict] at h
  by_cases hDs : DEFAULTSECT = s
  · simp only [dGet, hDs, if_pos, Option.some.injEq] at h
    rw [← h]
    exact lowStrSection_keys_nodup _
  · simp only [dGet, hDs, if_false] at h
    rw [dGet_map (fun x => dUpdate (lowStrSection ((dGet fd DEFAULTSECT).getD []))
        (lowStrSection x)) (fd.filter (fun p => p.1 != DEFAULTSECT)) s] at h
    cases hg : dGet (fd.filter (fun p => p.1 != DEFAULTSECT)) s with
    | none => rw [hg] at h; simp at h
    | some x =>
      rw [hg] at h
      simp only [Option.map_some', Option.some.injEq] at h
      rw [← h]
      exact dKeys_dUpdate_nodup _ _ (lowStrSection_keys_nodup _)

/-- The section worklist of a reload of any parser read-back: exactly the
read-back's sections, in order. -/
theorem sectionsToLoad_readback (fd : IniFile) :
    sectionsToLoad [(DEFAULTSECT, ([] : StrMap PyVal))] (parserReadToDict fd)
        Option.none
      = dKeys (parserReadToDict fd) := by
  have hD : DEFAULTSECT ∈ List.map Prod.fst (parserReadToDict fd) := by
    simp [parserReadToDict]
  simp [sectionsToLoad, hD, dKeys]

/-- Lookup through the per-section overlay loop of `Config.save`:
a section of the scope overlays (or replaces) the base's entry, any other
section keeps the base's entry. -/
theorem saveFold_dGet (l : ConfigData) :
    ∀ (base : ConfigData), (dKeys l).Nodup → ∀ s,
      dGet (l.foldl save_overlay_step base) s
      = match dGet l s with
        | Option.some ds =>
          match dGet base s with
          | Option.some ex => Option.some (dUpdate ex ds)
          | Option.none => Option.some ds
        | Option.none => dGet base s := by
  induction l with
  | nil => intro base _ s; rfl
  | cons p ps ih =>
    intro base hnd s
    simp only [dKeys, List.map_cons, List.nodup_cons] at hnd
    rw [List.foldl_cons, ih _ (by simpa [dKeys] using hnd.2) s]
    by_cases hps : p.1 = s
    · subst hps
      have hpsn : dGet ps p.1 = Option.none :=
        dGet_eq_none_of_not_mem_dKeys ps p.1 (by simpa [dKeys] using hnd.1)
      rw [hpsn]
      have hcons : dGet (p :: ps) p.1 = Option.some p.2 := by simp [dGet]
      rw [hcons]
      show dGet (save_overlay_step base p) p.1 = _
      unfold save_overlay_step
      cases hb : dGet base p.1 with
      | some ex => exact dGet_dSet_self base p.1 (dUpdate ex p.2)
      | none => exact dGet_dSet_self base p.1 p.2
    · have hstep : dGet (save_overlay_step base p) s = dGet base s := by
        unfold save_overlay_step
        cases hb : dGet base p.1 with
        | some ex => exact dGet_dSet_ne base p.1 s (dUpdate ex p.2) hps
        | none => exact dGet_dSet_ne base p.1 s p.2 hps
      rw [hstep]
      have hcons : dGet (p :: ps) s = dGet ps s := by simp [dGet, hps]
      rw [hcons]

/-- `save` in `add` mode with an explicit path naming an existing file:
reload the destination (the explicit `file` argument is forwarded), then
finish with the full in-memory data as the scope. -/
theorem config_save_add_existing (ev : EvalFn) (now pa : String) (c : Config)
    (fs : FS) (p : String) (orig : IniFile) (hp : dGet fs p = Option.some orig) :
    Config.save ev now pa c fs (Option.some p) Option.none "add" false
      = (_load ev c._cast c._strict_cast c._strict_key c.default (Option.some p)
          Option.none Option.none true fs).bind
          (fun r => Config.saveFinish now c fs p orig c.data r.1 r.2 false) := by
  simp only [Config.save, hp, pybind_ok, bind, Except.bind]
  rw [show pyLower "add" = "add" from rfl]
  rw [if_neg (by decide : ¬("add" = "i" ∨ "add" = "interactive"))]
  rw [if_neg (by decide : ¬("add" = "w" ∨ "add" = "write" ∨ "add" = "overwrite"))]
  rw [if_pos (by decide : ("add" = "a" ∨ "add" = "add"))]

/-- `saveFinish` with the backup suppressed and a reload that reset the
path: record the path and write the overlaid data. -/
theorem saveFinish_add_eq (now : String) (c : Config) (fs : FS) (p : String)
    (orig : IniFile) (dsc dsave : ConfigData) :
    Config.saveFinish now c fs p orig dsc dsave (Option.some p) false
      = Except.ok ({ c with filepath := Option.some p },
          dSet fs p (parserWrite (dsc.foldl save_overlay_step dsave))) := rfl

/-- C1 (amended).  With an explicit destination path naming an existing
file (store constructed with no defaults, casting and `strict_key` off),
`save` in `add` mode re-reads the destination and layers the in-memory
data on top section by section: destination sections untouched by the
in-memory data survive unchanged, touched sections get per-key updates
in which destination keys outside the written scope keep their values,
and in-memory sections absent from the destination are inserted
wholesale.  When the path argument is omitted, however, the call does
not re-read `self.filepath`: `save` forwards the original `None` file
argument to the reload and the call raises
`ValueError("Both file and data are None")`. -/
theorem c1_amended (ev : EvalFn) (now pa : String) (c : Config) (fs : FS)
    (p : String) (orig : IniFile)
    (hp : dGet fs p = Option.some orig)
    (hcast : c._cast = false) (hsk : c._strict_key = false)
    (hdflt : c.default = [(DEFAULTSECT, [])])
    (hnd : (dKeys c.data).Nodup) :
    (∃ ds2,
      Config.save ev now pa c fs (Option.some p) Option.none "add" false
        = Except.ok ({ c with filepath := Option.some p },
            dSet fs p (parserWrite ds2))
      ∧ (∀ s rs, dGet (parserReadToDict orig) s = Option.some rs →
          dHas c.data s = false → dGet ds2 s = Option.some rs)
      ∧ (∀ s rs ds, dGet (parserReadToDict orig) s = Option.some rs →
          dGet c.data s = Option.some ds →
          dGet ds2 s = Option.some (dUpdate rs ds)
          ∧ ∀ k, dHas ds k = false → dGet (dUpdate rs ds) k = dGet rs k)
      ∧ (∀ s ds, dGet (parserReadToDict orig) s = Option.none →
          dGet c.data s = Option.some ds → dGet ds2 s = Option.some ds))
    ∧ (∀ (c0 : Config) (fs0 : FS) (q : String) (orig0 : IniFile),
        c0.filepath = Option.some q → dGet fs0 q = Option.some orig0 →
        Config.save ev now pa c0 fs0 Option.none Option.none "add" false
          = Except.error (.valueError "Both file and data are None")) := by
  constructor
  · have hsa := config_save_add_existing ev now pa c fs p orig hp
    rw [hcast, hsk, hdflt] at hsa
    have hload := load_from_file ev false c._strict_cast false true
      [(DEFAULTSECT, [])] p fs orig hp
    rw [sectionsToLoad_readback orig] at hload
    have hf : ∀ s ∈ dKeys (parserReadToDict orig),
        _load_section ev false c._strict_cast false [(DEFAULTSECT, [])]
          (parserReadToDict orig) s
        = Except.ok (dUpdate ((dGet [(DEFAULTSECT, ([] : StrMap PyVal))] s).getD [])
            ((dGet (parserReadToDict orig) s).getD [])) := by
      intro s hs
      have hsome := isSome_dGet_of_mem_dKeys _ s hs
      cases hrs : dGet (parserReadToDict orig) s with
      | none => rw [hrs] at hsome; simp at hsome
      | some rs =>
        rw [load_section_lenient_retains ev c._strict_cast [(DEFAULTSECT, [])] _ s rs hrs]
        rfl
    have hmerge := loadMerge_eq_pure ev false c._strict_cast false [(DEFAULTSECT, [])]
      (parserReadToDict orig) (dKeys (parserReadToDict orig))
      (fun s => dUpdate ((dGet [(DEFAULTSECT, ([] : StrMap PyVal))] s).getD [])
        ((dGet (parserReadToDict orig) s).getD [])) hf
    rw [hmerge] at hload
    simp only [Except.bind] at hload
    rw [hload] at hsa
    simp only [Except.bind] at hsa
    rw [saveFinish_add_eq] at hsa
    have hdrget : ∀ s rs, dGet (parserReadToDict orig) s = Option.some rs →
        dGet ((dKeys (parserReadToDict orig)).foldl
          (fun dr s => dSet dr s (dUpdate
            ((dGet [(DEFAULTSECT, ([] : StrMap PyVal))] s).getD [])
            ((dGet (parserReadToDict orig) s).getD []))) []) s = Option.some rs := by
      intro s rs hrs
      rw [foldl_dSet_dGet, if_pos (mem_dKeys_of_dGet _ s rs hrs)]
      show Option.some (dUpdate ((dGet [(DEFAULTSECT, ([] : StrMap PyVal))] s).getD [])
        ((dGet (parserReadToDict orig) s).getD [])) = _
      rw [hrs, dGet_trivial_default s]
      show Option.some (dUpdate [] rs) = _
      rw [dUpdate_nil_eq rs (parserReadToDict_val_nodup orig s rs hrs)]
    have hdrnone : ∀ s, dGet (parserReadToDict orig) s = Option.none →
        dGet ((dKeys (parserReadToDict orig)).foldl
          (fun dr s => dSet dr s (dUpdate
            ((dGet [(DEFAULTSECT, ([] : StrMap PyVal))] s).getD [])
            ((dGet (parserReadToDict orig) s).getD []))) []) s = Option.none := by
      intro s hrs
      rw [foldl_dSet_dGet, if_neg ?_]
      · rfl
      · intro hm
        have h2 := isSome_dGet_of_mem_dKeys _ s hm
        rw [hrs] at h2
        simp at h2
    refine ⟨_, hsa, ?_, ?_, ?_⟩
    · intro s rs hrs hhas
      rw [saveFold_dGet c.data _ hnd s]
      have hnone : dGet c.data s = Option.none := by
        rw [dHas_eq_isSome_dGet] at hhas
        cases he : dGet c.data s with
        | none => rfl
        | some x => rw [he] at hhas; simp at hhas
      rw [hnone]
      exact hdrget s rs hrs
    · intro s rs ds hrs hds
      constructor
      · rw [saveFold_dGet c.data _ hnd s, hds, hdrget s rs hrs]
      · intro k hk
        refine dGet_dUpdate_not_mem rs ds k ?_
        intro hkm
        have h2 := isSome_dGet_of_mem_dKeys ds k hkm
        rw [dHas_eq_isSome_dGet, h2] at hk
        simp at hk
    · intro s ds hrs hds
      rw [saveFold_dGet c.data _ hnd s, hds, hdrnone s hrs]
  · intro c0 fs0 q orig0 hq hfs0
    simp only [Config.save, hq, hfs0, pybind_ok, bind, Except.bind]
    rw [show pyLower "add" = "add" from rfl]
    rw [if_neg (by decide : ¬("add" = "i" ∨ "add" = "interactive"))]
    rw [if_neg (by decide : ¬("add" = "w" ∨ "add" = "write" ∨ "add" = "overwrite"))]
    rw [if_pos (by decide : ("add" = "a" ∨ "add" = "add"))]
    rw [show _load ev c0._cast c0._strict_cast c0._strict_key c0.default Option.none
        Option.none Option.none true fs0
        = Except.error (.valueError "Both file and data are None") from rfl]

/-- C1 witness: the amended add-merge theorem at the specification's own
example — destination `{a:{x:1,y:2}, b:{z:3}}` and in-memory data
`{a:{x:9}}`. -/
theorem c1_amended_witness :
    dGet [("config.ini", c1WOrig)] "config.ini" = Option.some c1WOrig
    ∧ c1WConfig._cast = false
    ∧ (dKeys c1WConfig.data).Nodup
    ∧ ((∃ ds2,
        Config.save evalStub "20260101" "" c1WConfig [("config.ini", c1WOrig)]
            (Option.some "config.ini") Option.none "add" false
          = Except.ok ({ c1WConfig with filepath := Option.some "config.ini" },
              dSet [("config.ini", c1WOrig)] "config.ini" (parserWrite ds2))
        ∧ (∀ s rs, dGet (parserReadToDict c1WOrig) s = Option.some rs →
            dHas c1WConfig.data s = false → dGet ds2 s = Option.some rs)
        ∧ (∀ s rs ds, dGet (parserReadToDict c1WOrig) s = Option.some rs →
            dGet c1WConfig.data s = Option.some ds →
            dGet ds2 s = Option.some (dUpdate rs ds)
            ∧ ∀ k, dHas ds k = false → dGet (dUpdate rs ds) k = dGet rs k)
        ∧ (∀ s ds, dGet (parserReadToDict c1WOrig) s = Option.none →
            dGet c1WConfig.data s = Option.some ds → dGet ds2 s = Option.some ds))
      ∧ (∀ (c0 : Config) (fs0 : FS) (q : String) (orig0 : IniFile),
          c0.filepath = Option.some q → dGet fs0 q = Option.some orig0 →
          Config.save evalStub "20260101" "" c0 fs0 Option.none Option.none "add" false
            = Except.error (.valueError "Both file and data are None"))) :=
  ⟨rfl, rfl, by decide,
    c1_amended evalStub "20260101" "" c1WConfig [("config.ini", c1WOrig)]
      "config.ini" c1WOrig rfl rfl rfl rfl (by decide)⟩

end ConfigSnippets
